import Mathlib

/-!
MPS_XDot: UART protocol client for the NNTS sensor (`src/main.cpp`).

A shallow embedding of the protocol engine of `src/main.cpp`: the checksum
routine `crc_generate`, the request sender `uartSend`, the single receive
attempt `uartSingleRecv`, the resend routine `uartReSend`, the retry loop
`uartRecv` and the codecs `ReadVersion` and `WriteByte`, followed by theorems
about them.

Modelling conventions.

* Bytes and machine integers are natural numbers; the channel interface
  reduces every received byte modulo 256, and 16-bit results are reduced
  modulo 65536 where the C code truncates.
* The target is a little-endian ARM core: a `uint16_t` field `v` of a header
  occupies the two bytes `v % 256`, `v / 256 % 256` in that order, and both
  header structures have no padding (8 and 6 bytes).
* A region of memory addressed through a pointer is a `List Nat` holding the
  bytes from that address on.  `readBytes` reads past the end of the list as
  zero, so the zero-initialised staging buffer of `uartSingleRecv` is
  represented by the bytes stored into it so far.  A payload read that
  stores past the end of the staging buffer (`UART_MAX_DATA_SIZE + 1` bytes)
  ends the receive attempt with the marker `STAGING_OVERRUN`, which is not a
  `uint32_t` value: the source has undefined behaviour from there on, and
  the theorems on the outcome of a receive attempt assume that the reply
  fits the buffer.  The declared size of `payloadCache[256]` is not enforced
  by the list operations.
* `UART1` is an external collaborator.  It is a parameter: a state type `σ`
  with arbitrary `write` and `read` transition functions (`Channel σ`).
* `printf`, `DumpRqstHdr`, `DumpReplyHdr`, `DumpHexa` and the flags `verbose`
  and `hexdump` only produce console output and are left out, except for the
  version block that `ReadVersion` prints, which is returned as its decoded
  result.
* `World.trace` is a ghost log of the calls made on the channel and of the
  values returned by `uartSingleRecv` and `uartReSend`; no modelled function
  reads it.
-/

namespace MPS

/-! ## Constants (`#define`s of `src/main.cpp`) -/

def UART_SUCCESS : Nat := 0x00
def UART_CRC_ERROR : Nat := 0x01
def UART_BAD_PARAM : Nat := 0x02
def UART_EXE_FAILED : Nat := 0x03
def UART_NO_MEM : Nat := 0x04
def UART_UNKNOWN_CMD : Nat := 0x05
def UART_LOCAL_ERROR : Nat := 0xFF

def CMD_MEAS : Nat := 0x61
def CMD_SHUTDOWN : Nat := 0x62
def CMD_VERSION : Nat := 0x42

/-- Value of `sizeof(uartRqstHeader_t)`: four `uint16_t` fields. -/
def RQST_HDR_LENGTH : Nat := 8
/-- Value of `sizeof(uartReplyHeader_t)`: two `uint8_t` and two `uint16_t` fields. -/
def REPLY_HDR_LENGTH : Nat := 6
def UART_MAX_DATA_SIZE : Nat := 1024 * 8

/-- Result recorded for a receive attempt in which the channel stored past
the end of the staging buffer `buffer[UART_MAX_DATA_SIZE+1]`.  From there on
the behaviour of the source is undefined; the value is outside the range of
`uint32_t`, so it differs from every result the source can return. -/
def STAGING_OVERRUN : Nat := 4294967296

/-! ## Checksum engine -/

def crc_table : List Nat := [
  0x0000, 0x1021, 0x2042, 0x3063, 0x4084, 0x50a5, 0x60c6, 0x70e7,
  0x8108, 0x9129, 0xa14a, 0xb16b, 0xc18c, 0xd1ad, 0xe1ce, 0xf1ef,
  0x1231, 0x0210, 0x3273, 0x2252, 0x52b5, 0x4294, 0x72f7, 0x62d6,
  0x9339, 0x8318, 0xb37b, 0xa35a, 0xd3bd, 0xc39c, 0xf3ff, 0xe3de,
  0x2462, 0x3443, 0x0420, 0x1401, 0x64e6, 0x74c7, 0x44a4, 0x5485,
  0xa56a, 0xb54b, 0x8528, 0x9509, 0xe5ee, 0xf5cf, 0xc5ac, 0xd58d,
  0x3653, 0x2672, 0x1611, 0x0630, 0x76d7, 0x66f6, 0x5695, 0x46b4,
  0xb75b, 0xa77a, 0x9719, 0x8738, 0xf7df, 0xe7fe, 0xd79d, 0xc7bc,
  0x48c4, 0x58e5, 0x6886, 0x78a7, 0x0840, 0x1861, 0x2802, 0x3823,
  0xc9cc, 0xd9ed, 0xe98e, 0xf9af, 0x8948, 0x9969, 0xa90a, 0xb92b,
  0x5af5, 0x4ad4, 0x7ab7, 0x6a96, 0x1a71, 0x0a50, 0x3a33, 0x2a12,
  0xdbfd, 0xcbdc, 0xfbbf, 0xeb9e, 0x9b79, 0x8b58, 0xbb3b, 0xab1a,
  0x6ca6, 0x7c87, 0x4ce4, 0x5cc5, 0x2c22, 0x3c03, 0x0c60, 0x1c41,
  0xedae, 0xfd8f, 0xcdec, 0xddcd, 0xad2a, 0xbd0b, 0x8d68, 0x9d49,
  0x7e97, 0x6eb6, 0x5ed5, 0x4ef4, 0x3e13, 0x2e32, 0x1e51, 0x0e70,
  0xff9f, 0xefbe, 0xdfdd, 0xcffc, 0xbf1b, 0xaf3a, 0x9f59, 0x8f78,
  0x9188, 0x81a9, 0xb1ca, 0xa1eb, 0xd10c, 0xc12d, 0xf14e, 0xe16f,
  0x1080, 0x00a1, 0x30c2, 0x20e3, 0x5004, 0x4025, 0x7046, 0x6067,
  0x83b9, 0x9398, 0xa3fb, 0xb3da, 0xc33d, 0xd31c, 0xe37f, 0xf35e,
  0x02b1, 0x1290, 0x22f3, 0x32d2, 0x4235, 0x5214, 0x6277, 0x7256,
  0xb5ea, 0xa5cb, 0x95a8, 0x8589, 0xf56e, 0xe54f, 0xd52c, 0xc50d,
  0x34e2, 0x24c3, 0x14a0, 0x0481, 0x7466, 0x6447, 0x5424, 0x4405,
  0xa7db, 0xb7fa, 0x8799, 0x97b8, 0xe75f, 0xf77e, 0xc71d, 0xd73c,
  0x26d3, 0x36f2, 0x0691, 0x16b0, 0x6657, 0x7676, 0x4615, 0x5634,
  0xd94c, 0xc96d, 0xf90e, 0xe92f, 0x99c8, 0x89e9, 0xb98a, 0xa9ab,
  0x5844, 0x4865, 0x7806, 0x6827, 0x18c0, 0x08e1, 0x3882, 0x28a3,
  0xcb7d, 0xdb5c, 0xeb3f, 0xfb1e, 0x8bf9, 0x9bd8, 0xabbb, 0xbb9a,
  0x4a75, 0x5a54, 0x6a37, 0x7a16, 0x0af1, 0x1ad0, 0x2ab3, 0x3a92,
  0xfd2e, 0xed0f, 0xdd6c, 0xcd4d, 0xbdaa, 0xad8b, 0x9de8, 0x8dc9,
  0x7c26, 0x6c07, 0x5c64, 0x4c45, 0x3ca2, 0x2c83, 0x1ce0, 0x0cc1,
  0xef1f, 0xff3e, 0xcf5d, 0xdf7c, 0xaf9b, 0xbfba, 0x8fd9, 0x9ff8,
  0x6e17, 0x7e36, 0x4e55, 0x5e74, 0x2e93, 0x3eb2, 0x0ed1, 0x1ef0]

/-- The `n` bytes found at the start of a memory region; addresses past the
end of the list read as zero. -/
def readBytes : List Nat → Nat → List Nat
  | _, 0 => []
  | [], n + 1 => 0 :: readBytes [] n
  | b :: p, n + 1 => b :: readBytes p n

/-- One iteration of the loop of `crc_generate`:
`crc = (crc << 8) ^ crc_table[(crc >> 8) ^ *p]`, truncated to `uint16_t`. -/
def crc_step (crc : Nat) (b : Nat) : Nat :=
  ((crc <<< 8) ^^^ crc_table.getD ((crc >>> 8) ^^^ b) 0) % 65536

/-- Model of `crc_generate(buffer, length, startValue)`: the loop body applied
to the first `length` bytes of `buffer` in order. -/
def crc_generate (buffer : List Nat) (length : Nat) (startValue : Nat) : Nat :=
  (readBytes buffer length).foldl crc_step startValue

/-! ## Frame model -/

/-- Request header `uartRqstHeader_t`. -/
structure uartRqstHeader_t where
  cmdID : Nat
  length : Nat
  reserved : Nat
  cksum : Nat
deriving DecidableEq, Repr

/-- The two bytes of a `uint16_t` in memory (little-endian). -/
def u16Bytes (v : Nat) : List Nat := [v % 256, v / 256 % 256]

/-- Object representation of a request header, as seen through
`(uint8_t *) &header`. -/
def uartRqstHeader_t.bytes (h : uartRqstHeader_t) : List Nat :=
  u16Bytes h.cmdID ++ u16Bytes h.length ++ u16Bytes h.reserved ++ u16Bytes h.cksum

/-- Field `cmdID` of the `uartReplyHeader_t` overlaid on a buffer (`reply->cmdID`). -/
def replyCmdID (buffer : List Nat) : Nat := buffer.getD 0 0
/-- Field `status` of the reply header overlaid on a buffer. -/
def replyStatus (buffer : List Nat) : Nat := buffer.getD 1 0
/-- Field `length` of the reply header overlaid on a buffer (bytes 2 and 3). -/
def replyLength (buffer : List Nat) : Nat := buffer.getD 2 0 + 256 * buffer.getD 3 0
/-- Field `cksum` of the reply header overlaid on a buffer (bytes 4 and 5). -/
def replyCksum (buffer : List Nat) : Nat := buffer.getD 4 0 + 256 * buffer.getD 5 0
/-- Assignment `reply->cksum = v` through the overlaid header. -/
def setReplyCksum (buffer : List Nat) (v : Nat) : List Nat :=
  (buffer.set 4 (v % 256)).set 5 (v / 256 % 256)

/-! ## Memory primitives -/

/-- Effect of `memset(dst, v, n)` on the region starting at `dst`. -/
def memset (dst : List Nat) (v n : Nat) : List Nat :=
  List.replicate n v ++ dst.drop n

/-- Effect of `memcpy(dst, src, n)` on the region starting at `dst`. -/
def memcpy (dst src : List Nat) (n : Nat) : List Nat :=
  readBytes src n ++ dst.drop n

/-- Storing `data` at offset `off` of a zero-extended region. -/
def store (buf : List Nat) (off : Nat) (data : List Nat) : List Nat :=
  readBytes buf off ++ data ++ buf.drop (off + data.length)

/-! ## The channel and the program state -/

/-- The duplex byte channel `UART1`, an external collaborator.
`write s bytes` is a call of `UART1.write` submitting `bytes`; it yields the
returned count (negative for an error).  `read s n` is a call of
`UART1.read` asking for `n` bytes; `none` stands for a negative return value,
`some d` for the delivery of the bytes `d` (of which at most `n` are stored). -/
structure Channel (σ : Type) where
  write : σ → List Nat → Int × σ
  read : σ → Nat → Option (List Nat) × σ

/-- Entries of the ghost log. -/
inductive Event where
  | write (bytes : List Nat) (rc : Int)
  | read (off : Nat) (n : Nat) (res : Option (List Nat))
  | recvReturned (status : Nat)
  | resendReturned (status : Nat)
deriving DecidableEq, Repr

/-- The global variables of `src/main.cpp` that the protocol engine uses,
together with the state of the channel and the ghost log. -/
structure World (σ : Type) where
  chan : σ
  trace : List Event
  numOfRetries : Nat
  pktHdrCache : uartRqstHeader_t
  payloadCache : List Nat
  payloadCacheLen : Nat
  mutex : Nat

/-- The bytes a read of `n` bytes stores when the channel delivers `d`. -/
def rxBytes (d : List Nat) (n : Nat) : List Nat := (d.take n).map (· % 256)

/-- Call `UART1.write(buf, n)`: submits the first `n` bytes of `buf`. -/
def UART1_write {σ : Type} (ch : Channel σ) (w : World σ) (buf : List Nat) (n : Nat) :
    World σ × Int :=
  let bytes := readBytes buf n
  let r := ch.write w.chan bytes
  ({ w with chan := r.2, trace := w.trace ++ [Event.write bytes r.1] }, r.1)

/-- Call `UART1.read(&buffer[off], n)`: returns the updated buffer and the
return value of the call. -/
def UART1_read {σ : Type} (ch : Channel σ) (w : World σ) (buffer : List Nat) (off n : Nat) :
    World σ × List Nat × Int :=
  match ch.read w.chan n with
  | (none, c) =>
    ({ w with chan := c, trace := w.trace ++ [Event.read off n none] }, buffer, -1)
  | (some d, c) =>
    ({ w with chan := c, trace := w.trace ++ [Event.read off n (some (rxBytes d n))] },
      store buffer off (rxBytes d n), ((rxBytes d n).length : Int))

/-! ## Protocol engine -/

/-- Model of `uartSend(cmdID, payload, payloadLen)`; `payload = none` is the
null pointer.  Returns the new state and the `uint8_t` result. -/
def uartSend {σ : Type} (ch : Channel σ) (w : World σ) (cmdID : Nat)
    (payload : Option (List Nat)) (payloadLen : Nat) : World σ × Nat :=
  let w := { w with mutex := 1 }
  -- memset(&header, 0, RQST_HDR_LENGTH); header.cmdID = cmdID; header.length = payloadLen;
  let header : uartRqstHeader_t := { cmdID := cmdID, length := payloadLen, reserved := 0, cksum := 0 }
  let cksum := crc_generate header.bytes RQST_HDR_LENGTH 0xFFFF
  let header := { header with cksum := cksum }
  if payloadLen ≠ 0 ∧ payload = none then (w, 1)
  else
    let cksum := if payloadLen ≠ 0 then crc_generate (payload.getD []) payloadLen cksum else cksum
    let header := { header with cksum := cksum }
    let r := UART1_write ch w header.bytes RQST_HDR_LENGTH
    let w := r.1
    if r.2 ≠ (RQST_HDR_LENGTH : Int) then (w, 1)
    else
      let w := if w.numOfRetries ≠ 0 then { w with pktHdrCache := header } else w
      if payloadLen ≠ 0 then
        let r := UART1_write ch w (payload.getD []) payloadLen
        let w := r.1
        if r.2 ≠ (payloadLen : Int) then (w, 1)
        else
          let w := if w.numOfRetries ≠ 0 then
              { w with payloadCache := memcpy w.payloadCache (payload.getD []) payloadLen,
                       payloadCacheLen := payloadLen }
            else w
          ({ w with mutex := 0 }, 0)
      else ({ w with mutex := 0 }, 0)

/-- Second half of `uartSingleRecv`, entered once header and payload are in
the staging buffer: checksum verification, status and command checks, and
the copy into the caller's buffer `payload`.  Returns the caller's buffer and
the result. -/
def uartSingleRecvCheck (buffer : List Nat) (cmdID : Nat) (payload : List Nat)
    (payloadLen : Nat) : List Nat × Nat :=
  let rxCksum := replyCksum buffer
  let buffer := setReplyCksum buffer 0
  let cksum := crc_generate buffer (REPLY_HDR_LENGTH + replyLength buffer) 0xFFFF
  if rxCksum ≠ cksum then (payload, UART_LOCAL_ERROR)
  else
    let buffer := setReplyCksum buffer rxCksum
    if replyStatus buffer ≠ UART_SUCCESS ∧ ¬ (replyStatus buffer ≥ 0x20) then
      (payload, replyStatus buffer)
    else if replyCmdID buffer ≠ cmdID then (payload, UART_LOCAL_ERROR)
    else if replyLength buffer = 0 then (payload, UART_SUCCESS)
    else if payloadLen < replyLength buffer then (payload, UART_LOCAL_ERROR)
    else
      let payload := memset payload 0 payloadLen
      let payload := memcpy payload (buffer.drop REPLY_HDR_LENGTH) (replyLength buffer)
      (payload, UART_SUCCESS)

/-- Body of `uartSingleRecv(cmdID, payload, payloadLen)`: returns the new
state, the caller's buffer `payload` and the `uint32_t` result.  The source
does not compare the length field with the size of its staging buffer; when
the payload read stores more bytes than the 8193-byte array has room for
after the header, the attempt ends here with the marker `STAGING_OVERRUN`
and nothing is said about the caller's buffer. -/
def uartSingleRecvBody {σ : Type} (ch : Channel σ) (w : World σ) (cmdID : Nat)
    (payload : List Nat) (payloadLen : Nat) : World σ × List Nat × Nat :=
  -- memset(buffer, 0, sizeof(buffer));
  let buffer : List Nat := []
  let r := UART1_read ch w buffer 0 REPLY_HDR_LENGTH
  let w := r.1
  let buffer := r.2.1
  let rxLen := r.2.2
  if rxLen ≤ 0 then (w, payload, UART_LOCAL_ERROR)
  else if rxLen < (REPLY_HDR_LENGTH : Int) then (w, payload, UART_LOCAL_ERROR)
  else if replyLength buffer ≠ 0 then
    let r := UART1_read ch w buffer REPLY_HDR_LENGTH (replyLength buffer)
    let w := r.1
    let buffer := r.2.1
    let rxLen := r.2.2
    -- the rxLen bytes were stored from &buffer[6] on; sizeof(buffer) is UART_MAX_DATA_SIZE + 1
    if ((UART_MAX_DATA_SIZE + 1 : Nat) : Int) < (REPLY_HDR_LENGTH : Int) + rxLen then
      (w, payload, STAGING_OVERRUN)
    else if rxLen < (replyLength buffer : Int) then (w, payload, UART_LOCAL_ERROR)
    else (w, uartSingleRecvCheck buffer cmdID payload payloadLen)
  else (w, uartSingleRecvCheck buffer cmdID payload payloadLen)

/-- Model of `uartSingleRecv`: the body, with the returned value logged. -/
def uartSingleRecv {σ : Type} (ch : Channel σ) (w : World σ) (cmdID : Nat)
    (payload : List Nat) (payloadLen : Nat) : World σ × List Nat × Nat :=
  let r := uartSingleRecvBody ch w cmdID payload payloadLen
  ({ r.1 with trace := r.1.trace ++ [Event.recvReturned r.2.2] }, r.2.1, r.2.2)

/-- Body of `uartReSend(cmdID)`. -/
def uartReSendBody {σ : Type} (ch : Channel σ) (w : World σ) (_cmdID : Nat) : World σ × Nat :=
  let r := UART1_write ch w w.pktHdrCache.bytes RQST_HDR_LENGTH
  let w := r.1
  if r.2 ≠ (RQST_HDR_LENGTH : Int) then (w, 1)
  else if w.payloadCacheLen ≠ 0 then
    let r := UART1_write ch w w.payloadCache w.payloadCacheLen
    let w := r.1
    if r.2 ≠ (w.payloadCacheLen : Int) then (w, 1) else (w, 0)
  else (w, 0)

/-- Model of `uartReSend`: the body, with the returned value logged. -/
def uartReSend {σ : Type} (ch : Channel σ) (w : World σ) (cmdID : Nat) : World σ × Nat :=
  let r := uartReSendBody ch w cmdID
  ({ r.1 with trace := r.1.trace ++ [Event.resendReturned r.2] }, r.2)

/-- Conversion of an `int32_t` to `uint32_t`. -/
def toUInt32 (x : Int) : Nat := (x % 4294967296).toNat

/-- Reduction of an integer into the range of `int32_t` (two's complement). -/
def wrapInt32 (x : Int) : Int := (x + 2147483648) % 4294967296 - 2147483648

/-- The `do { ... } while (...)` loop of `uartRecv`, one iteration per unit of
`fuel`; `none` when the fuel runs out before the loop exits. -/
def uartRecvLoop {σ : Type} (ch : Channel σ) (cmdID : Nat) (payloadLen : Nat) :
    Nat → World σ → List Nat → Int → Option (World σ × List Nat × Nat)
  | 0, _, _, _ => none
  | fuel + 1, w, payload, retry =>
    let r := uartReSend ch w cmdID
    if r.2 ≠ 0 then some (r.1, payload, r.2)
    else
      let r := uartSingleRecv ch r.1 cmdID payload payloadLen
      -- (retry++ < numOfRetries) && (status != UART_SUCCESS)
      if toUInt32 retry < r.1.numOfRetries ∧ r.2.2 ≠ UART_SUCCESS then
        uartRecvLoop ch cmdID payloadLen fuel r.1 r.2.1 (wrapInt32 (retry + 1))
      else some (r.1, r.2.1, r.2.2)

/-- Model of `uartRecv(cmdID, payload, payloadLen)`. -/
def uartRecv {σ : Type} (fuel : Nat) (ch : Channel σ) (w : World σ) (cmdID : Nat)
    (payload : List Nat) (payloadLen : Nat) : Option (World σ × List Nat × Nat) :=
  let retry : Int := 1
  let r := uartSingleRecv ch w cmdID payload payloadLen
  if r.2.2 = UART_SUCCESS ∨ r.1.numOfRetries = 0 then some r
  else uartRecvLoop ch cmdID payloadLen fuel r.1 r.2.1 retry

/-! ## Command codecs -/

/-- Version block `uart_version_t`. -/
structure uart_version_t where
  sw_w : Nat
  sw_x : Nat
  sw_y : Nat
  sw_z : Nat
  hw_w : Nat
  hw_x : Nat
  proto_w : Nat
  proto_x : Nat
deriving DecidableEq, Repr

/-- The `uart_version_t` overlaid on a buffer (`(uart_version_t *) data`):
eight consecutive bytes. -/
def versionAt (data : List Nat) : uart_version_t :=
  { sw_w := data.getD 0 0, sw_x := data.getD 1 0, sw_y := data.getD 2 0, sw_z := data.getD 3 0,
    hw_w := data.getD 4 0, hw_x := data.getD 5 0, proto_w := data.getD 6 0,
    proto_x := data.getD 7 0 }

/-- Model of `ReadVersion(cmdID, data, size)`.  The receive step of the source
is commented out, so the function sends the request and then prints the
version found in the caller's buffer `data`.  Returns the new state, the
`uint32_t` result and the version printed by the final `printf` (`none` when
the function returns before it). -/
def ReadVersion {σ : Type} (ch : Channel σ) (w : World σ) (cmdID : Nat) (data : List Nat)
    (_size : Nat) : World σ × Nat × Option uart_version_t :=
  let w := { w with mutex := 1 }
  let r := uartSend ch w cmdID none 0
  if r.2 ≠ 0 then (r.1, 1, none)
  else
    -- if(uartRecv(cmdID, data, size) != 0) return 1;   is commented out in the source
    (r.1, 0, some (versionAt data))

/-- Model of `WriteByte(cmdID, data, size)`: `uartSend` followed by `uartRecv`
with a null buffer of size 0.  `none` when the retry loop runs out of fuel. -/
def WriteByte {σ : Type} (fuel : Nat) (ch : Channel σ) (w : World σ) (cmdID : Nat)
    (data : Option (List Nat)) (size : Nat) : Option (World σ × Nat) :=
  let r := uartSend ch w cmdID data size
  if r.2 ≠ 0 then some (r.1, 1)
  else
    match uartRecv fuel ch r.1 cmdID [] 0 with
    | none => none
    | some r2 => if r2.2.2 ≠ 0 then some (r2.1, 1) else some (r2.1, 0)

/-! ## Reference checksum

The bit-by-bit CRC-16 with polynomial `0x1021`, most significant bit first,
without reflection and without final XOR.  This definition does not come from
the source; it is the reference the table-driven `crc_generate` is compared
with. -/

/-- One bit step of the reference CRC on a 16-bit register: shift left by one
and XOR the polynomial `0x1021` when the bit shifted out was set. -/
def crc_bit (crc : Nat) : Nat :=
  if crc.testBit 15 then ((crc <<< 1) ^^^ 0x1021) % 65536 else (crc <<< 1) % 65536

/-- Reference CRC: `n` bit steps. -/
def crc_bits : Nat → Nat → Nat
  | 0, crc => crc
  | n + 1, crc => crc_bits n (crc_bit crc)

/-- Reference CRC: one byte, XORed into the high byte of the register and
followed by eight bit steps. -/
def crc_bitwise_byte (crc : Nat) (b : Nat) : Nat :=
  crc_bits 8 (crc ^^^ (b <<< 8))

/-- Reference CRC of a byte sequence from a start value. -/
def crc_bitwise (bytes : List Nat) (startValue : Nat) : Nat :=
  bytes.foldl crc_bitwise_byte startValue

/-! ## Test fixtures -/

/-- A channel whose receive side is a queue of pending bytes, handed out in
order, and whose transmit side accepts every byte. -/
def streamChannel : Channel (List Nat) where
  write := fun s bytes => ((bytes.length : Int), s)
  read := fun s n => (some (s.take n), s.drop n)

/-- The state at program start with the given channel state and retry count. -/
def initWorld {σ : Type} (c : σ) (retries : Nat) : World σ :=
  { chan := c, trace := [], numOfRetries := retries,
    pktHdrCache := { cmdID := 0, length := 0, reserved := 0, cksum := 0 },
    payloadCache := List.replicate 256 0, payloadCacheLen := 0, mutex := 0 }

/-- The state reached from program start, with retry count 1, by a successful
`uartSend(CMD_MEAS, {1}, 1)` (the request of `WriteByte` for the measurement
command); the log is cleared. -/
def afterMeasSend : World (List Nat) :=
  { (uartSend streamChannel (initWorld [] 1) CMD_MEAS (some [1]) 1).1 with trace := [] }

/-- The state reached from `afterMeasSend` by `uartSend(CMD_SHUTDOWN, NULL, 0)`,
and the value that call returns. -/
def afterShutdownSend : World (List Nat) × Nat :=
  uartSend streamChannel afterMeasSend CMD_SHUTDOWN none 0

/-- A channel on which every write and every read fails. -/
def deafChannel : Channel Unit where
  write := fun s _ => (-1, s)
  read := fun s _ => (none, s)

/-! ## Derived notions used to state the properties -/

/-- What a receive attempt obtains from the channel in state `s` when the
reply arrives completely: the 6 header bytes delivered to the first read, the
payload bytes delivered to the second read (which takes place only for a
non-zero length field) and the state of the channel afterwards.  `none` when
a read fails or comes back short. -/
def completeReply {σ : Type} (ch : Channel σ) (s : σ) : Option (List Nat × List Nat × σ) :=
  match ch.read s REPLY_HDR_LENGTH with
  | (none, _) => none
  | (some d, c) =>
    let hdr := rxBytes d REPLY_HDR_LENGTH
    if hdr.length = REPLY_HDR_LENGTH then
      if replyLength hdr = 0 then some (hdr, [], c)
      else
        match ch.read c (replyLength hdr) with
        | (none, _) => none
        | (some d2, c2) =>
          let pl := rxBytes d2 (replyLength hdr)
          if pl.length = replyLength hdr then some (hdr, pl, c2) else none
    else none

/-- The 8 bytes of the request header for command `cmdID` with payload `p` of
length `payloadLen`: fields `cmdID`, `length`, `reserved = 0` and the checksum
over the header with zero checksum field followed by the payload. -/
def requestHeader (cmdID payloadLen : Nat) (p : List Nat) : List Nat :=
  (uartRqstHeader_t.mk cmdID payloadLen 0
    (crc_generate ((uartRqstHeader_t.mk cmdID payloadLen 0 0).bytes ++ p.take payloadLen)
      (RQST_HDR_LENGTH + payloadLen) 0xFFFF)).bytes

/-- The checksum of a reply frame: `crc_generate` with seed `0xFFFF` over the
header with its checksum field zeroed, followed by the payload. -/
def replyChecksum (hdr pl : List Nat) : Nat :=
  crc_generate (setReplyCksum hdr 0 ++ pl) (REPLY_HDR_LENGTH + pl.length) 0xFFFF

/-- The log entries a completely received reply leaves. -/
def replyReads (hdr pl : List Nat) : List Event :=
  Event.read 0 REPLY_HDR_LENGTH (some hdr) ::
    (if replyLength hdr = 0 then [] else [Event.read REPLY_HDR_LENGTH (replyLength hdr) (some pl)])

/-- Log entries that record an attempt (a return of `uartSingleRecv` or of
`uartReSend`). -/
def Event.isAttempt : Event → Bool
  | Event.recvReturned _ => true
  | Event.resendReturned _ => true
  | _ => false

/-- Log entries that record a return of `uartSingleRecv`. -/
def Event.isRecv : Event → Bool
  | Event.recvReturned _ => true
  | _ => false

/-- Log entries that record a return of `uartReSend`. -/
def Event.isResend : Event → Bool
  | Event.resendReturned _ => true
  | _ => false

/-- Log entries that record a call of `UART1.write`. -/
def Event.isWrite : Event → Bool
  | Event.write _ _ => true
  | _ => false

/-- The attempts recorded in a log, in order. -/
def attempts (t : List Event) : List Event := t.filter Event.isAttempt

/-- The number of bytes of the staging buffer a logged call covers: a read
into `&buffer[off]` of `n` bytes may store into the indices below `off + n`. -/
def Event.readExtent : Event → Nat
  | Event.read off n _ => off + n
  | _ => 0

/-- The number of leading bytes of the staging buffer that the reads of a log
ask the channel to store into. -/
def stagingExtent (t : List Event) : Nat :=
  (t.map Event.readExtent).foldl max 0

/-- Relation `Follows x y`: attempt `y` may come directly after attempt `x`, namely a
resend after a receive that did not return `UART_SUCCESS`, or a receive after
a resend that returned 0. -/
def Follows : Event → Event → Prop
  | Event.recvReturned s, Event.resendReturned _ => s ≠ UART_SUCCESS
  | Event.resendReturned st, Event.recvReturned _ => st = 0
  | _, _ => False

/-- The attempt sequences of the `do ... while` loop of `uartRecv` when it is
entered with counter value `k` and retry count `N`: a resend that fails ends
the loop; a resend that succeeds is followed by a receive, after which the
loop goes on only if the counter was below `N` and the receive did not
return `UART_SUCCESS`. -/
inductive LoopAttempts (N : Nat) : Nat → List Event → Prop
  | failed (k st : Nat) : st ≠ 0 → LoopAttempts N k [Event.resendReturned st]
  | last (k s : Nat) : (¬ k < N ∨ s = UART_SUCCESS) →
      LoopAttempts N k [Event.resendReturned 0, Event.recvReturned s]
  | more (k s : Nat) (rest : List Event) : k < N → s ≠ UART_SUCCESS →
      LoopAttempts N (k + 1) rest →
      LoopAttempts N k (Event.resendReturned 0 :: Event.recvReturned s :: rest)

/-- State `v` differs from state `w` at most in the channel, and its log is
the log of `w` followed by `evs`. -/
def Extends {σ : Type} (w v : World σ) (evs : List Event) : Prop :=
  v = { w with chan := v.chan, trace := w.trace ++ evs }

/-! ## Lemmas on the checksum -/

theorem readBytes_length (l : List Nat) (n : Nat) : (readBytes l n).length = n := by
  induction n generalizing l with
  | zero => cases l <;> rfl
  | succ n ih => cases l <;> simp [readBytes, ih]

theorem readBytes_of_le (l : List Nat) (n : Nat) (h : n ≤ l.length) :
    readBytes l n = l.take n := by
  induction n generalizing l with
  | zero => cases l <;> rfl
  | succ n ih =>
    cases l with
    | nil => simp at h
    | cons b p => simp [readBytes, ih p (by simpa using h)]

theorem readBytes_self (l : List Nat) : readBytes l l.length = l := by
  rw [readBytes_of_le l _ (le_refl _), List.take_length]

theorem readBytes_append (a b : List Nat) (n : Nat) :
    readBytes (a ++ b) (a.length + n) = a ++ readBytes b n := by
  induction a with
  | nil => simp
  | cons x a ih =>
    have : (x :: a).length + n = (a.length + n) + 1 := by simp; omega
    rw [this]
    simp [readBytes, ih]

theorem crc_generate_eq_foldl (l : List Nat) (n : Nat) (s : Nat) (h : n ≤ l.length) :
    crc_generate l n s = (l.take n).foldl crc_step s := by
  unfold crc_generate
  rw [readBytes_of_le l n h]

theorem crc_generate_self (l : List Nat) (s : Nat) :
    crc_generate l l.length s = l.foldl crc_step s := by
  unfold crc_generate
  rw [readBytes_self]

/-- Running-checksum property in the form `uartSend` relies on. -/
theorem crc_generate_append (a b : List Nat) (n : Nat) (s : Nat) :
    crc_generate (a ++ b) (a.length + n) s = crc_generate b n (crc_generate a a.length s) := by
  unfold crc_generate
  rw [readBytes_append, readBytes_self, List.foldl_append]

theorem crc_step_lt (c b : Nat) : crc_step c b < 65536 := by
  unfold crc_step
  exact Nat.mod_lt _ (by decide)

theorem foldl_crc_step_lt (l : List Nat) (s : Nat) (hs : s < 65536) :
    l.foldl crc_step s < 65536 := by
  induction l generalizing s with
  | nil => simpa using hs
  | cons b l ih => exact ih _ (crc_step_lt s b)

theorem crc_generate_lt (l : List Nat) (n s : Nat) (hs : s < 65536) :
    crc_generate l n s < 65536 :=
  foldl_crc_step_lt _ _ hs

theorem xor_mod_two_pow_eq (a b k : Nat) :
    (a ^^^ b) % 2 ^ k = (a % 2 ^ k) ^^^ (b % 2 ^ k) := by
  apply Nat.eq_of_testBit_eq
  intro i
  simp only [Nat.testBit_mod_two_pow, Nat.testBit_xor]
  by_cases h : i < k <;> simp [h]

set_option maxRecDepth 1000000 in
theorem crc_table_low_nodup : (crc_table.map (· % 256)).Nodup := by decide

set_option maxRecDepth 100000 in
theorem crc_table_length : crc_table.length = 256 := by decide

theorem crc_table_low_inj (i j : Nat) (hi : i < 256) (hj : j < 256)
    (h : crc_table.getD i 0 % 256 = crc_table.getD j 0 % 256) : i = j := by
  have hn := crc_table_low_nodup
  have hl : (crc_table.map (· % 256)).length = 256 := by
    rw [List.length_map, crc_table_length]
  have hi2 : i < (crc_table.map (· % 256)).length := by omega
  have hj2 : j < (crc_table.map (· % 256)).length := by omega
  have hi3 : i < crc_table.length := by rw [crc_table_length]; exact hi
  have hj3 : j < crc_table.length := by rw [crc_table_length]; exact hj
  apply (@List.Nodup.getElem_inj_iff _ _ hn i hi2 j hj2).1
  simp only [List.getElem_map]
  rw [List.getD_eq_getElem _ _ hi3, List.getD_eq_getElem _ _ hj3] at h
  exact h

set_option maxRecDepth 100000 in
theorem crc_table_lt (i : Nat) : crc_table.getD i 0 < 65536 := by
  by_cases hi : i < crc_table.length
  · rw [List.getD_eq_getElem _ _ hi]
    have : ∀ x ∈ crc_table, x < 65536 := by decide
    exact this _ (List.getElem_mem _)
  · rw [List.getD_eq_default _ _ (by omega)]
    decide

/-- Low byte of the next checksum: the low byte of the table entry. -/
theorem crc_step_low (c b : Nat) : crc_step c b % 256 = crc_table.getD ((c >>> 8) ^^^ b) 0 % 256 := by
  unfold crc_step
  have h1 : ∀ x : Nat, x % 65536 % 256 = x % 256 := fun x => by omega
  rw [h1]
  have h2 := xor_mod_two_pow_eq (c <<< 8) (crc_table.getD ((c >>> 8) ^^^ b) 0) 8
  have h3 : (c <<< 8) % 2 ^ 8 = 0 := by
    rw [Nat.shiftLeft_eq]; omega
  rw [h3, Nat.zero_xor] at h2
  simpa using h2

theorem crc_step_inj_byte (c b b' : Nat) (hc : c < 65536) (hb : b < 256) (hb' : b' < 256)
    (h : crc_step c b = crc_step c b') : b = b' := by
  have hh : c >>> 8 < 2 ^ 8 := by
    rw [Nat.shiftRight_eq_div_pow]; omega
  have h1 : crc_step c b % 256 = crc_step c b' % 256 := by rw [h]
  rw [crc_step_low, crc_step_low] at h1
  have h2 := crc_table_low_inj _ _ (Nat.xor_lt_two_pow hh (by simpa using hb))
    (Nat.xor_lt_two_pow hh (by simpa using hb')) h1
  exact Nat.xor_right_injective h2

theorem crc_step_inj_crc (c c' b : Nat) (hc : c < 65536) (hc' : c' < 65536) (hb : b < 256)
    (h : crc_step c b = crc_step c' b) : c = c' := by
  have hh : c >>> 8 < 2 ^ 8 := by
    rw [Nat.shiftRight_eq_div_pow]; omega
  have hh' : c' >>> 8 < 2 ^ 8 := by
    rw [Nat.shiftRight_eq_div_pow]; omega
  have h1 : crc_step c b % 256 = crc_step c' b % 256 := by rw [h]
  rw [crc_step_low, crc_step_low] at h1
  have h2 := crc_table_low_inj _ _ (Nat.xor_lt_two_pow hh (by simpa using hb))
    (Nat.xor_lt_two_pow hh' (by simpa using hb)) h1
  have h3 : c >>> 8 = c' >>> 8 := Nat.xor_left_injective h2
  unfold crc_step at h
  rw [h3] at h
  have e := xor_mod_two_pow_eq (c <<< 8) (crc_table.getD ((c' >>> 8) ^^^ b) 0) 16
  have e' := xor_mod_two_pow_eq (c' <<< 8) (crc_table.getD ((c' >>> 8) ^^^ b) 0) 16
  have h4 : (c <<< 8) % 2 ^ 16 = (c' <<< 8) % 2 ^ 16 := by
    apply Nat.xor_left_injective (n := crc_table.getD ((c' >>> 8) ^^^ b) 0 % 2 ^ 16)
    show (c <<< 8) % 2 ^ 16 ^^^ _ = (c' <<< 8) % 2 ^ 16 ^^^ _
    rw [← e, ← e']
    simpa using h
  rw [Nat.shiftLeft_eq, Nat.shiftLeft_eq] at h4
  rw [Nat.shiftRight_eq_div_pow, Nat.shiftRight_eq_div_pow] at h3
  omega

theorem foldl_crc_step_ne (l : List Nat) (c c' : Nat) (hc : c < 65536) (hc' : c' < 65536)
    (hl : ∀ b ∈ l, b < 256) (h : c ≠ c') : l.foldl crc_step c ≠ l.foldl crc_step c' := by
  induction l generalizing c c' with
  | nil => simpa using h
  | cons b l ih =>
    simp only [List.foldl_cons]
    apply ih _ _ (crc_step_lt _ _) (crc_step_lt _ _) (fun x hx => hl x (List.mem_cons_of_mem _ hx))
    intro e
    exact h (crc_step_inj_crc c c' b hc hc' (hl b (List.mem_cons_self _ _)) e)

/-- The checksum separates two byte sequences that differ in one position. -/
theorem foldl_crc_step_single_change (a t : List Nat) (x y s : Nat) (hs : s < 65536)
    (hx : x < 256) (hy : y < 256) (ht : ∀ b ∈ t, b < 256) (hxy : x ≠ y) :
    (a ++ x :: t).foldl crc_step s ≠ (a ++ y :: t).foldl crc_step s := by
  simp only [List.foldl_append, List.foldl_cons]
  apply foldl_crc_step_ne t _ _ (crc_step_lt _ _) (crc_step_lt _ _) ht
  intro e
  exact hxy (crc_step_inj_byte _ x y (foldl_crc_step_lt a s hs) hx hy e)

/-! ## Lemmas on a receive attempt -/

theorem list_length_six (l : List Nat) (h : l.length = 6) :
    ∃ b0 b1 b2 b3 b4 b5, l = [b0, b1, b2, b3, b4, b5] := by
  match l, h with
  | [b0, b1, b2, b3, b4, b5], _ => exact ⟨b0, b1, b2, b3, b4, b5, rfl⟩

theorem rxBytes_lt (d : List Nat) (n : Nat) : ∀ b ∈ rxBytes d n, b < 256 := by
  intro b hb
  unfold rxBytes at hb
  rw [List.mem_map] at hb
  obtain ⟨a, _, rfl⟩ := hb
  exact Nat.mod_lt _ (by decide)

theorem UART1_read_some {σ : Type} (ch : Channel σ) (w : World σ) (buffer : List Nat)
    (off n : Nat) (d : List Nat) (c : σ) (h : ch.read w.chan n = (some d, c)) :
    UART1_read ch w buffer off n =
      ({ w with chan := c, trace := w.trace ++ [Event.read off n (some (rxBytes d n))] },
        store buffer off (rxBytes d n), ((rxBytes d n).length : Int)) := by
  unfold UART1_read
  rw [h]

/-- Unfolding of `completeReply` into the two deliveries. -/
theorem completeReply_inv {σ : Type} (ch : Channel σ) (s c : σ) (hdr pl : List Nat)
    (h : completeReply ch s = some (hdr, pl, c)) :
    ∃ d c1, ch.read s 6 = (some d, c1) ∧ hdr = rxBytes d 6 ∧ hdr.length = 6 ∧
      ((replyLength hdr = 0 ∧ pl = [] ∧ c = c1) ∨
       (replyLength hdr ≠ 0 ∧ ∃ d2, ch.read c1 (replyLength hdr) = (some d2, c) ∧
          pl = rxBytes d2 (replyLength hdr) ∧ pl.length = replyLength hdr)) := by
  unfold completeReply at h
  rcases hr : ch.read s REPLY_HDR_LENGTH with ⟨_ | d, c1⟩
  · rw [hr] at h; simp at h
  · rw [hr] at h
    simp only at h
    by_cases hl : (rxBytes d REPLY_HDR_LENGTH).length = REPLY_HDR_LENGTH
    · rw [if_pos hl] at h
      by_cases h0 : replyLength (rxBytes d REPLY_HDR_LENGTH) = 0
      · rw [if_pos h0] at h
        simp only [Option.some.injEq, Prod.mk.injEq] at h
        obtain ⟨rfl, rfl, rfl⟩ := h
        exact ⟨d, c1, hr, rfl, hl, Or.inl ⟨h0, rfl, rfl⟩⟩
      · rw [if_neg h0] at h
        rcases hr2 : ch.read c1 (replyLength (rxBytes d REPLY_HDR_LENGTH)) with ⟨_ | d2, c2⟩
        · rw [hr2] at h; simp at h
        · rw [hr2] at h
          simp only at h
          by_cases hl2 : (rxBytes d2 (replyLength (rxBytes d REPLY_HDR_LENGTH))).length
              = replyLength (rxBytes d REPLY_HDR_LENGTH)
          · rw [if_pos hl2] at h
            simp only [Option.some.injEq, Prod.mk.injEq] at h
            obtain ⟨rfl, rfl, rfl⟩ := h
            exact ⟨d, c1, hr, rfl, hl, Or.inr ⟨h0, d2, hr2, rfl, hl2⟩⟩
          · rw [if_neg hl2] at h; simp at h
    · rw [if_neg hl] at h; simp at h

/-- What `completeReply` guarantees about the delivered header and payload. -/
theorem completeReply_spec {σ : Type} (ch : Channel σ) (s c : σ) (hdr pl : List Nat)
    (h : completeReply ch s = some (hdr, pl, c)) :
    hdr.length = 6 ∧ pl.length = replyLength hdr ∧ (∀ b ∈ hdr, b < 256) ∧ (∀ b ∈ pl, b < 256) := by
  obtain ⟨d, c1, _, rfl, hl, hcase⟩ := completeReply_inv ch s c hdr pl h
  rcases hcase with ⟨h0, rfl, _⟩ | ⟨_, d2, _, rfl, hl2⟩
  · exact ⟨hl, by simp [h0], rxBytes_lt _ _, by simp⟩
  · exact ⟨hl, hl2, rxBytes_lt _ _, rxBytes_lt _ _⟩

/-- A receive attempt on a completely delivered reply: both reads are logged
and the decision is the one `uartSingleRecvCheck` takes on header ++ payload. -/
theorem uartSingleRecvBody_of_complete {σ : Type} (ch : Channel σ) (w : World σ)
    (cmdID : Nat) (payload : List Nat) (payloadLen : Nat) (hdr pl : List Nat) (c : σ)
    (h : completeReply ch w.chan = some (hdr, pl, c))
    (hcap : REPLY_HDR_LENGTH + replyLength hdr ≤ UART_MAX_DATA_SIZE + 1) :
    uartSingleRecvBody ch w cmdID payload payloadLen =
      ({ w with chan := c, trace := w.trace ++ replyReads hdr pl },
        uartSingleRecvCheck (hdr ++ pl) cmdID payload payloadLen) := by
  obtain ⟨d, c1, hr, rfl, hl, hcase⟩ := completeReply_inv ch w.chan c hdr pl h
  have hcap' : 6 + replyLength (rxBytes d 6) ≤ 8193 := hcap
  have hst : store [] 0 (rxBytes d 6) = rxBytes d 6 := by simp [store, readBytes]
  unfold uartSingleRecvBody
  simp only [REPLY_HDR_LENGTH]
  rw [UART1_read_some ch w [] 0 6 d c1 hr, hst]
  simp only [hl]
  rcases hcase with ⟨h0, rfl, rfl⟩ | ⟨h0, d2, hr2, rfl, hl2⟩
  · simp [h0, replyReads, REPLY_HDR_LENGTH]
  · have hst2 : store (rxBytes d 6) 6 (rxBytes d2 (replyLength (rxBytes d 6)))
        = rxBytes d 6 ++ rxBytes d2 (replyLength (rxBytes d 6)) := by
      unfold store
      have e1 := readBytes_self (rxBytes d 6)
      rw [hl] at e1
      rw [e1, List.drop_of_length_le (by omega)]
      simp
    have hlen2 : replyLength (rxBytes d 6 ++ rxBytes d2 (replyLength (rxBytes d 6)))
        = replyLength (rxBytes d 6) := by
      obtain ⟨b0, b1, b2, b3, b4, b5, hb⟩ := list_length_six _ hl
      rw [hb]
      simp [replyLength]
    have hU : UART_MAX_DATA_SIZE = 8192 := rfl
    rw [UART1_read_some ch _ _ 6 _ d2 c hr2, hst2]
    simp [h0, replyReads, hlen2, hl2, REPLY_HDR_LENGTH, hU]
    intro hbad
    omega

/-- The decision of `uartSingleRecvCheck` on a complete frame, expressed on
the header and the payload. -/
theorem uartSingleRecvCheck_eq (hdr pl : List Nat) (cmdID : Nat) (payload : List Nat)
    (payloadLen : Nat) (hl : hdr.length = 6) (hp : pl.length = replyLength hdr) :
    uartSingleRecvCheck (hdr ++ pl) cmdID payload payloadLen =
      if replyCksum hdr ≠ replyChecksum hdr pl then (payload, UART_LOCAL_ERROR)
      else if replyStatus hdr ≠ 0 ∧ replyStatus hdr < 0x20 then (payload, replyStatus hdr)
      else if replyCmdID hdr ≠ cmdID then (payload, UART_LOCAL_ERROR)
      else if replyLength hdr = 0 then (payload, UART_SUCCESS)
      else if payloadLen < replyLength hdr then (payload, UART_LOCAL_ERROR)
      else (pl ++ List.replicate (payloadLen - replyLength hdr) 0 ++ payload.drop payloadLen,
            UART_SUCCESS) := by
  obtain ⟨b0, b1, b2, b3, b4, b5, rfl⟩ := list_length_six _ hl
  have hlen : replyLength [b0, b1, b2, b3, b4, b5] = b2 + 256 * b3 := by simp [replyLength]
  rw [hlen] at hp
  have hcopy : ∀ n, pl.length ≤ n →
      memcpy (memset payload 0 n) pl pl.length
        = pl ++ List.replicate (n - pl.length) 0 ++ payload.drop n := by
    intro n hn
    unfold memcpy memset
    rw [readBytes_self, List.drop_append_eq_append_drop, List.drop_replicate]
    simp only [List.length_replicate, List.drop_drop, List.append_assoc]
    have : pl.length - n + n = n := by omega
    rw [Nat.add_comm, this]
  unfold uartSingleRecvCheck
  simp only [replyCksum, replyChecksum, replyLength, replyStatus, replyCmdID, setReplyCksum,
    REPLY_HDR_LENGTH, UART_SUCCESS, UART_LOCAL_ERROR, List.cons_append, List.nil_append,
    List.set_cons_succ, List.set_cons_zero, List.getD_cons_succ, List.getD_cons_zero,
    List.drop_succ_cons, List.drop_zero, ← hp, Nat.not_le, ge_iff_le]
  by_cases hck : b4 + 256 * b5 =
      crc_generate (b0 :: b1 :: b2 :: b3 :: (0 % 256) :: (0 / 256 % 256) :: pl) (6 + pl.length) 65535
  · simp only [hck, ne_eq, not_true_eq_false, if_false]
    split_ifs with h1 h2 h3 h4 <;> first | rfl | rw [hcopy payloadLen (by omega)]
  · simp [hck]

theorem uartSingleRecv_of_complete {σ : Type} (ch : Channel σ) (w : World σ)
    (cmdID : Nat) (payload : List Nat) (payloadLen : Nat) (hdr pl : List Nat) (c : σ)
    (h : completeReply ch w.chan = some (hdr, pl, c))
    (hcap : REPLY_HDR_LENGTH + replyLength hdr ≤ UART_MAX_DATA_SIZE + 1) :
    uartSingleRecv ch w cmdID payload payloadLen =
      ({ w with chan := c, trace := w.trace ++ replyReads hdr pl ++
            [Event.recvReturned (uartSingleRecvCheck (hdr ++ pl) cmdID payload payloadLen).2] },
        uartSingleRecvCheck (hdr ++ pl) cmdID payload payloadLen) := by
  unfold uartSingleRecv
  rw [uartSingleRecvBody_of_complete ch w cmdID payload payloadLen hdr pl c h hcap]

/-- A completely delivered reply that does not fit the staging buffer: the
payload read stores past `buffer[UART_MAX_DATA_SIZE]`, and the attempt ends
with the overrun marker, before the checksum or any other field is looked at. -/
theorem uartSingleRecv_of_oversize {σ : Type} (ch : Channel σ) (w : World σ)
    (cmdID : Nat) (payload : List Nat) (payloadLen : Nat) (hdr pl : List Nat) (c : σ)
    (h : completeReply ch w.chan = some (hdr, pl, c))
    (hbig : UART_MAX_DATA_SIZE + 1 < REPLY_HDR_LENGTH + replyLength hdr) :
    (uartSingleRecv ch w cmdID payload payloadLen).2 = (payload, STAGING_OVERRUN) := by
  obtain ⟨d, c1, hr, rfl, hl, hcase⟩ := completeReply_inv ch w.chan c hdr pl h
  have hbig' : 8193 < 6 + replyLength (rxBytes d 6) := hbig
  have hst : store [] 0 (rxBytes d 6) = rxBytes d 6 := by simp [store, readBytes]
  unfold uartSingleRecv uartSingleRecvBody
  simp only [REPLY_HDR_LENGTH]
  rw [UART1_read_some ch w [] 0 6 d c1 hr, hst]
  simp only [hl]
  rcases hcase with ⟨h0, _, _⟩ | ⟨h0, d2, hr2, rfl, hl2⟩
  · omega
  · have hU : UART_MAX_DATA_SIZE = 8192 := rfl
    rw [UART1_read_some ch _ _ 6 _ d2 c hr2]
    simp only [hl2, hU]
    have hover : (8193 : Int) < 6 + ((replyLength (rxBytes d 6) : Nat) : Int) := by
      omega
    simp [h0]
    rw [if_pos hover]

/-! ## Frame lemmas: what the engine leaves untouched -/

theorem Extends.refl {σ : Type} (w : World σ) : Extends w w [] := by
  simp [Extends]

theorem Extends.trans {σ : Type} {w v u : World σ} {e1 e2 : List Event}
    (h1 : Extends w v e1) (h2 : Extends v u e2) : Extends w u (e1 ++ e2) := by
  unfold Extends at *
  rw [h2, h1]
  simp

theorem Extends.log {σ : Type} {w v : World σ} {evs : List Event} (h : Extends w v evs)
    (e : Event) : Extends w { v with trace := v.trace ++ [e] } (evs ++ [e]) := by
  unfold Extends at *
  rw [h]
  simp

theorem Extends.trace_eq {σ : Type} {w v : World σ} {evs : List Event} (h : Extends w v evs) :
    v.trace = w.trace ++ evs := by
  unfold Extends at h
  rw [h]

theorem Extends.numOfRetries_eq {σ : Type} {w v : World σ} {evs : List Event}
    (h : Extends w v evs) : v.numOfRetries = w.numOfRetries := by
  unfold Extends at h
  rw [h]

theorem UART1_read_extends {σ : Type} (ch : Channel σ) (w : World σ) (buffer : List Nat)
    (off n : Nat) : ∃ res, Extends w (UART1_read ch w buffer off n).1 [Event.read off n res] := by
  unfold UART1_read
  rcases hr : ch.read w.chan n with ⟨_ | d, c⟩
  · exact ⟨none, by simp [Extends]⟩
  · exact ⟨some (rxBytes d n), by simp [Extends]⟩

theorem UART1_write_extends {σ : Type} (ch : Channel σ) (w : World σ) (buf : List Nat)
    (n : Nat) :
    Extends w (UART1_write ch w buf n).1
      [Event.write (readBytes buf n) (ch.write w.chan (readBytes buf n)).1] := by
  simp [UART1_write, Extends]

/-- The body of a receive attempt only reads from the channel. -/
theorem uartSingleRecvBody_extends {σ : Type} (ch : Channel σ) (w : World σ) (cmdID : Nat)
    (payload : List Nat) (payloadLen : Nat) :
    ∃ evs, Extends w (uartSingleRecvBody ch w cmdID payload payloadLen).1 evs ∧
      ∀ e ∈ evs, e.isWrite = false ∧ e.isAttempt = false := by
  obtain ⟨r1, h1⟩ := UART1_read_extends ch w [] 0 REPLY_HDR_LENGTH
  obtain ⟨r2, h2⟩ := UART1_read_extends ch (UART1_read ch w [] 0 REPLY_HDR_LENGTH).1
    (UART1_read ch w [] 0 REPLY_HDR_LENGTH).2.1 REPLY_HDR_LENGTH
    (replyLength (UART1_read ch w [] 0 REPLY_HDR_LENGTH).2.1)
  have one : ∀ e ∈ [Event.read 0 REPLY_HDR_LENGTH r1],
      e.isWrite = false ∧ e.isAttempt = false := by
    intro e he
    simp only [List.mem_singleton] at he
    subst he
    exact ⟨rfl, rfl⟩
  have two : ∀ e ∈ [Event.read 0 REPLY_HDR_LENGTH r1] ++ [Event.read REPLY_HDR_LENGTH
      (replyLength (UART1_read ch w [] 0 REPLY_HDR_LENGTH).2.1) r2],
      e.isWrite = false ∧ e.isAttempt = false := by
    intro e he
    simp only [List.mem_append, List.mem_singleton] at he
    rcases he with he | he <;> subst he <;> exact ⟨rfl, rfl⟩
  unfold uartSingleRecvBody
  simp only []
  split_ifs
  · exact ⟨_, h1, one⟩
  · exact ⟨_, h1, one⟩
  · exact ⟨_, h1.trans h2, two⟩
  · exact ⟨_, h1.trans h2, two⟩
  · exact ⟨_, h1.trans h2, two⟩
  · exact ⟨_, h1, one⟩

theorem uartSingleRecv_extends {σ : Type} (ch : Channel σ) (w : World σ) (cmdID : Nat)
    (payload : List Nat) (payloadLen : Nat) :
    ∃ evs, Extends w (uartSingleRecv ch w cmdID payload payloadLen).1
        (evs ++ [Event.recvReturned (uartSingleRecv ch w cmdID payload payloadLen).2.2]) ∧
      ∀ e ∈ evs, e.isWrite = false ∧ e.isAttempt = false := by
  obtain ⟨evs, h, hall⟩ := uartSingleRecvBody_extends ch w cmdID payload payloadLen
  exact ⟨evs, h.log _, hall⟩

/-- A resend only writes to the channel. -/
theorem uartReSend_extends {σ : Type} (ch : Channel σ) (w : World σ) (cmdID : Nat) :
    ∃ evs, Extends w (uartReSend ch w cmdID).1
        (evs ++ [Event.resendReturned (uartReSend ch w cmdID).2]) ∧
      ∀ e ∈ evs, e.isAttempt = false := by
  have h1 := UART1_write_extends ch w w.pktHdrCache.bytes RQST_HDR_LENGTH
  have h2 := UART1_write_extends ch (UART1_write ch w w.pktHdrCache.bytes RQST_HDR_LENGTH).1
    (UART1_write ch w w.pktHdrCache.bytes RQST_HDR_LENGTH).1.payloadCache
    (UART1_write ch w w.pktHdrCache.bytes RQST_HDR_LENGTH).1.payloadCacheLen
  have one : ∀ (a : List Nat) (b : Int), ∀ e ∈ [Event.write a b], e.isAttempt = false := by
    intro a b e he
    simp only [List.mem_singleton] at he
    subst he
    rfl
  have two : ∀ (a a' : List Nat) (b b' : Int),
      ∀ e ∈ [Event.write a b] ++ [Event.write a' b'], e.isAttempt = false := by
    intro a a' b b' e he
    simp only [List.mem_append, List.mem_singleton] at he
    rcases he with he | he <;> subst he <;> rfl
  unfold uartReSend uartReSendBody
  simp only []
  split_ifs
  · exact ⟨_, h1.log _, one _ _⟩
  · exact ⟨_, (h1.trans h2).log _, two _ _ _ _⟩
  · exact ⟨_, (h1.trans h2).log _, two _ _ _ _⟩
  · exact ⟨_, h1.log _, one _ _⟩

theorem attempts_append (a b : List Event) : attempts (a ++ b) = attempts a ++ attempts b := by
  simp [attempts]

theorem attempts_of_none (evs : List Event) (h : ∀ e ∈ evs, e.isAttempt = false) :
    attempts evs = [] := by
  unfold attempts
  rw [List.filter_eq_nil_iff]
  intro e he
  simp [h e he]

/-! ## Lemmas on the retry loop -/

theorem toUInt32_succ (x : Int) (k : Nat) (h : toUInt32 x = k) (hk : k + 1 < 4294967296) :
    toUInt32 (wrapInt32 (x + 1)) = k + 1 := by
  unfold toUInt32 wrapInt32 at *
  omega

theorem attempts_recv (evs : List Event) (s : Nat)
    (h : ∀ e ∈ evs, e.isWrite = false ∧ e.isAttempt = false) :
    attempts (evs ++ [Event.recvReturned s]) = [Event.recvReturned s] := by
  rw [attempts_append, attempts_of_none evs (fun e he => (h e he).2)]
  rfl

theorem attempts_resend (evs : List Event) (st : Nat) (h : ∀ e ∈ evs, e.isAttempt = false) :
    attempts (evs ++ [Event.resendReturned st]) = [Event.resendReturned st] := by
  rw [attempts_append, attempts_of_none evs h]
  rfl

/-- With enough fuel the loop of `uartRecv` exits, and its attempts follow
`LoopAttempts`. -/
theorem uartRecvLoop_spec {σ : Type} (ch : Channel σ) (cmdID payloadLen N : Nat)
    (hN : N < 4294967296) :
    ∀ (fuel : Nat) (w : World σ) (payload : List Nat) (retry : Int) (k : Nat),
      toUInt32 retry = k → k ≤ N → w.numOfRetries = N → N + 1 ≤ fuel + k →
      ∃ r evs, uartRecvLoop ch cmdID payloadLen fuel w payload retry = some r ∧
        Extends w r.1 evs ∧ LoopAttempts N k (attempts evs) := by
  intro fuel
  induction fuel with
  | zero =>
    intro w payload retry k _ hk _ hf
    omega
  | succ fuel ih =>
    intro w payload retry k hr hk hw hf
    obtain ⟨e1, hx1, ha1⟩ := uartReSend_extends ch w cmdID
    unfold uartRecvLoop
    simp only []
    by_cases hst : (uartReSend ch w cmdID).2 ≠ 0
    · rw [if_pos hst]
      refine ⟨_, _, rfl, hx1, ?_⟩
      rw [attempts_resend e1 _ ha1]
      exact LoopAttempts.failed k _ hst
    · rw [if_neg hst]
      have hst0 : (uartReSend ch w cmdID).2 = 0 := by
        simpa using hst
      obtain ⟨e2, hx2, ha2⟩ :=
        uartSingleRecv_extends ch (uartReSend ch w cmdID).1 cmdID payload payloadLen
      have hn2 : (uartSingleRecv ch (uartReSend ch w cmdID).1 cmdID payload
          payloadLen).1.numOfRetries = N := by
        rw [hx2.numOfRetries_eq, hx1.numOfRetries_eq, hw]
      have hatt : ∀ rest : List Event,
          attempts ((e1 ++ [Event.resendReturned (uartReSend ch w cmdID).2]) ++
            (e2 ++ [Event.recvReturned (uartSingleRecv ch (uartReSend ch w cmdID).1 cmdID
              payload payloadLen).2.2]) ++ rest)
          = Event.resendReturned 0 :: Event.recvReturned (uartSingleRecv ch
              (uartReSend ch w cmdID).1 cmdID payload payloadLen).2.2 :: attempts rest := by
        intro rest
        rw [attempts_append, attempts_append, attempts_resend e1 _ ha1,
          attempts_recv e2 _ ha2, hst0]
        rfl
      by_cases hc : toUInt32 retry < (uartSingleRecv ch (uartReSend ch w cmdID).1 cmdID payload
          payloadLen).1.numOfRetries ∧ (uartSingleRecv ch (uartReSend ch w cmdID).1 cmdID payload
          payloadLen).2.2 ≠ UART_SUCCESS
      · rw [if_pos hc]
        rw [hn2, hr] at hc
        obtain ⟨r, evs, hres, hx3, hla⟩ := ih
          (uartSingleRecv ch (uartReSend ch w cmdID).1 cmdID payload payloadLen).1
          (uartSingleRecv ch (uartReSend ch w cmdID).1 cmdID payload payloadLen).2.1
          (wrapInt32 (retry + 1)) (k + 1) (toUInt32_succ retry k hr (by omega)) (by omega)
          hn2 (by omega)
        refine ⟨r, _, hres, (hx1.trans hx2).trans hx3, ?_⟩
        rw [hatt evs]
        exact LoopAttempts.more k _ _ hc.1 hc.2 hla
      · rw [if_neg hc]
        rw [hn2, hr] at hc
        refine ⟨_, _, rfl, hx1.trans hx2, ?_⟩
        have := hatt []
        rw [List.append_nil] at this
        rw [this]
        apply LoopAttempts.last
        by_cases hk2 : k < N
        · right
          by_contra hne
          exact hc ⟨hk2, hne⟩
        · left
          exact hk2

theorem LoopAttempts.head_resend {N k : Nat} {a : List Event} (h : LoopAttempts N k a) :
    ∃ st rest, a = Event.resendReturned st :: rest := by
  cases h with
  | failed k st _ => exact ⟨st, [], rfl⟩
  | last k s _ => exact ⟨0, _, rfl⟩
  | more k s rest _ _ _ => exact ⟨0, _, rfl⟩

theorem LoopAttempts.count_le {N k : Nat} {a : List Event} (h : LoopAttempts N k a)
    (hk : k ≤ N) :
    a.countP Event.isResend ≤ N + 1 - k ∧ a.countP Event.isRecv ≤ N + 1 - k := by
  induction h with
  | failed k st _ =>
    simp [List.countP_cons, Event.isResend, Event.isRecv]
    omega
  | last k s _ =>
    simp [List.countP_cons, Event.isResend, Event.isRecv]
    omega
  | more k s rest hlt _ _ ih =>
    have := ih (by omega)
    simp only [List.countP_cons, Event.isResend, Event.isRecv]
    simp
    omega

theorem LoopAttempts.chain {N k : Nat} {a : List Event} (h : LoopAttempts N k a) :
    List.Chain' Follows a := by
  induction h with
  | failed k st _ => simp
  | last k s _ => simp [Follows]
  | more k s rest _ hs hrest ih =>
    obtain ⟨st, tl, rfl⟩ := hrest.head_resend
    rw [List.chain'_cons, List.chain'_cons]
    exact ⟨rfl, hs, ih⟩

theorem LoopAttempts.count_eq {N k : Nat} {a : List Event} (h : LoopAttempts N k a)
    (hk : k ≤ N) (hrecv : Event.recvReturned UART_SUCCESS ∉ a)
    (hresend : ∀ st, Event.resendReturned st ∈ a → st = 0) :
    a.countP Event.isResend = N + 1 - k ∧ a.countP Event.isRecv = N + 1 - k := by
  induction h with
  | failed k st hst =>
    exact absurd (hresend st (List.mem_singleton.2 rfl)) hst
  | last k s hs =>
    have hs0 : s ≠ UART_SUCCESS := by
      intro e
      apply hrecv
      rw [e]
      simp
    have : ¬ k < N := by
      rcases hs with h | h
      · exact h
      · exact absurd h hs0
    simp [List.countP_cons, Event.isResend, Event.isRecv]
    omega
  | more k s rest hlt _ _ ih =>
    have := ih (by omega)
      (fun hm => hrecv (List.mem_cons_of_mem _ (List.mem_cons_of_mem _ hm)))
      (fun st hm => hresend st (List.mem_cons_of_mem _ (List.mem_cons_of_mem _ hm)))
    simp only [List.countP_cons, Event.isResend, Event.isRecv]
    simp
    omega

/-- Summary of `uartRecv`: with enough fuel it returns; either the first
receive ends it, or the loop runs from counter value 1. -/
theorem uartRecv_spec {σ : Type} (ch : Channel σ) (w : World σ) (cmdID : Nat)
    (payload : List Nat) (payloadLen fuel : Nat) (hN : w.numOfRetries < 4294967296)
    (hf : w.numOfRetries ≤ fuel) :
    ∃ r evs, uartRecv fuel ch w cmdID payload payloadLen = some r ∧ Extends w r.1 evs ∧
      ((((uartSingleRecv ch w cmdID payload payloadLen).2.2 = UART_SUCCESS ∨
            w.numOfRetries = 0) ∧ r = uartSingleRecv ch w cmdID payload payloadLen ∧
          attempts evs = [Event.recvReturned (uartSingleRecv ch w cmdID payload payloadLen).2.2]) ∨
        ((uartSingleRecv ch w cmdID payload payloadLen).2.2 ≠ UART_SUCCESS ∧
          w.numOfRetries ≠ 0 ∧
          ∃ la, attempts evs =
              Event.recvReturned (uartSingleRecv ch w cmdID payload payloadLen).2.2 :: la ∧
            LoopAttempts w.numOfRetries 1 la)) := by
  obtain ⟨e0, hx0, ha0⟩ := uartSingleRecv_extends ch w cmdID payload payloadLen
  have hn0 := hx0.numOfRetries_eq
  unfold uartRecv
  simp only []
  by_cases h : (uartSingleRecv ch w cmdID payload payloadLen).2.2 = UART_SUCCESS ∨
      (uartSingleRecv ch w cmdID payload payloadLen).1.numOfRetries = 0
  · rw [if_pos h]
    rw [hn0] at h
    exact ⟨_, _, rfl, hx0, Or.inl ⟨h, rfl, attempts_recv e0 _ ha0⟩⟩
  · rw [if_neg h]
    rw [hn0] at h
    have h1 : (uartSingleRecv ch w cmdID payload payloadLen).2.2 ≠ UART_SUCCESS :=
      fun e => h (Or.inl e)
    have h2 : w.numOfRetries ≠ 0 := fun e => h (Or.inr e)
    obtain ⟨r, evs, hres, hx1, hla⟩ := uartRecvLoop_spec ch cmdID payloadLen w.numOfRetries hN
      fuel (uartSingleRecv ch w cmdID payload payloadLen).1
      (uartSingleRecv ch w cmdID payload payloadLen).2.1 1 1 (by decide) (by omega) hn0
      (by omega)
    refine ⟨r, _, hres, hx0.trans hx1, Or.inr ⟨h1, h2, attempts evs, ?_, hla⟩⟩
    rw [attempts_append, attempts_recv e0 _ ha0]
    rfl

theorem uartRecv_of_first {σ : Type} (ch : Channel σ) (w : World σ) (cmdID : Nat)
    (payload : List Nat) (payloadLen fuel : Nat)
    (h : (uartSingleRecv ch w cmdID payload payloadLen).2.2 = UART_SUCCESS ∨
      w.numOfRetries = 0) :
    uartRecv fuel ch w cmdID payload payloadLen
      = some (uartSingleRecv ch w cmdID payload payloadLen) := by
  obtain ⟨e0, hx0, _⟩ := uartSingleRecv_extends ch w cmdID payload payloadLen
  unfold uartRecv
  simp only []
  rw [hx0.numOfRetries_eq, if_pos h]

/-! ## Lemmas on the byte-queue channel -/

theorem map_mod_of_lt (l : List Nat) (h : ∀ b ∈ l, b < 256) : l.map (· % 256) = l := by
  induction l with
  | nil => rfl
  | cons a l ih =>
    rw [List.map_cons, ih (fun b hb => h b (List.mem_cons_of_mem _ hb))]
    simp only [Nat.mod_eq_of_lt (h a (List.mem_cons_self _ _))]

theorem rxBytes_of_append (a rest : List Nat) (n : Nat) (hn : a.length = n)
    (hb : ∀ b ∈ a, b < 256) : rxBytes ((a ++ rest).take n) n = a := by
  unfold rxBytes
  rw [List.take_take, Nat.min_self, List.take_left' hn, map_mod_of_lt a hb]

theorem replyLength_append (hdr pl : List Nat) (hl : hdr.length = 6) :
    replyLength (hdr ++ pl) = replyLength hdr := by
  obtain ⟨b0, b1, b2, b3, b4, b5, rfl⟩ := list_length_six _ hl
  simp [replyLength]

/-- The byte-queue channel holding a well-formed frame delivers it completely. -/
theorem completeReply_stream (hdr pl rest : List Nat) (hl : hdr.length = 6)
    (hp : pl.length = replyLength hdr) (hb : ∀ b ∈ hdr ++ pl, b < 256) :
    completeReply streamChannel (hdr ++ pl ++ rest) = some (hdr, pl, rest) := by
  have hbh : ∀ b ∈ hdr, b < 256 := fun b h => hb b (List.mem_append_left _ h)
  have hbp : ∀ b ∈ pl, b < 256 := fun b h => hb b (List.mem_append_right _ h)
  have r1 : rxBytes ((hdr ++ pl ++ rest).take 6) 6 = hdr := by
    rw [List.append_assoc]
    exact rxBytes_of_append hdr _ 6 hl hbh
  have d1 : (hdr ++ pl ++ rest).drop 6 = pl ++ rest := by
    rw [List.append_assoc, List.drop_left' hl]
  have r2 : rxBytes ((pl ++ rest).take (replyLength hdr)) (replyLength hdr) = pl :=
    rxBytes_of_append pl _ _ hp hbp
  have d2 : (pl ++ rest).drop (replyLength hdr) = rest := List.drop_left' hp
  unfold completeReply
  simp only [streamChannel, REPLY_HDR_LENGTH, r1, d1, hl, if_true]
  by_cases h0 : replyLength hdr = 0
  · have hnil : pl = [] := List.length_eq_zero.1 (hp.trans h0)
    subst hnil
    simp [h0]
  · simp only [h0, if_false, r2, d2, hp, if_true]

/-- On the byte-queue channel a frame whose payload is shorter than its
length field says ends the receive attempt with `UART_LOCAL_ERROR`. -/
theorem uartSingleRecv_stream_short (w : World (List Nat)) (cmdID : Nat) (payload : List Nat)
    (payloadLen : Nat) (hdr pl : List Nat) (hw : w.chan = hdr ++ pl) (hl : hdr.length = 6)
    (hb : ∀ b ∈ hdr ++ pl, b < 256) (hshort : pl.length < replyLength hdr)
    (hcap : REPLY_HDR_LENGTH + pl.length ≤ UART_MAX_DATA_SIZE + 1) :
    (uartSingleRecv streamChannel w cmdID payload payloadLen).2 = (payload, UART_LOCAL_ERROR) := by
  have hbh : ∀ b ∈ hdr, b < 256 := fun b h => hb b (List.mem_append_left _ h)
  have hbp : ∀ b ∈ pl, b < 256 := fun b h => hb b (List.mem_append_right _ h)
  have hr1 : streamChannel.read w.chan 6 = (some ((hdr ++ pl).take 6), pl) := by
    rw [hw]
    simp only [streamChannel]
    rw [List.drop_left' hl]
  have r1 : rxBytes ((hdr ++ pl).take 6) 6 = hdr := rxBytes_of_append hdr pl 6 hl hbh
  have hst : store [] 0 hdr = hdr := by simp [store, readBytes]
  have hr2 : ∀ v : World (List Nat), v.chan = pl →
      streamChannel.read v.chan (replyLength hdr) = (some pl, []) := by
    intro v hv
    rw [hv]
    simp only [streamChannel]
    rw [List.take_of_length_le (by omega), List.drop_of_length_le (by omega)]
  have r2 : rxBytes pl (replyLength hdr) = pl := by
    unfold rxBytes
    rw [List.take_of_length_le (by omega), map_mod_of_lt pl hbp]
  have hst2 : store hdr 6 pl = hdr ++ pl := by
    unfold store
    have e1 := readBytes_self hdr
    rw [hl] at e1
    rw [e1, List.drop_of_length_le (by omega)]
    simp
  unfold uartSingleRecv uartSingleRecvBody
  simp only [REPLY_HDR_LENGTH]
  rw [UART1_read_some streamChannel w [] 0 6 _ _ hr1, r1, hst]
  simp only [hl]
  have hne : replyLength hdr ≠ 0 := by omega
  have hU : UART_MAX_DATA_SIZE = 8192 := rfl
  have hcap' : 6 + pl.length ≤ 8193 := hcap
  have hno : ¬ ((8193 : Int) < 6 + (pl.length : Int)) := by omega
  rw [UART1_read_some streamChannel _ hdr 6 (replyLength hdr) pl [] (hr2 _ rfl), r2, hst2]
  simp [hne, replyLength_append hdr pl hl, hshort, hU, hno]
theorem replyChecksum_eq_foldl (hdr pl : List Nat) (hl : hdr.length = 6) :
    replyChecksum hdr pl = (setReplyCksum hdr 0 ++ pl).foldl crc_step 0xFFFF := by
  unfold replyChecksum
  have e : (setReplyCksum hdr 0 ++ pl).length = REPLY_HDR_LENGTH + pl.length := by
    simp [setReplyCksum, hl, REPLY_HDR_LENGTH]
  rw [← e, crc_generate_self]

/-- A frame that differs from a frame with valid checksum in one byte
outside the checksum field, the length being the same, has a checksum field
that does not match. -/
theorem replyCksum_ne_of_change (hdr hdr' pl pl' a t : List Nat) (x y : Nat)
    (hl : hdr.length = 6) (hl' : hdr'.length = 6)
    (hck : replyCksum hdr = replyChecksum hdr pl) (hsame : replyCksum hdr' = replyCksum hdr)
    (h1 : setReplyCksum hdr 0 ++ pl = a ++ x :: t)
    (h2 : setReplyCksum hdr' 0 ++ pl' = a ++ y :: t)
    (hx : x < 256) (hy : y < 256) (ht : ∀ b ∈ t, b < 256) (hxy : x ≠ y) :
    replyCksum hdr' ≠ replyChecksum hdr' pl' := by
  rw [hsame, hck, replyChecksum_eq_foldl hdr pl hl, replyChecksum_eq_foldl hdr' pl' hl', h1, h2]
  exact foldl_crc_step_single_change a t x y 0xFFFF (by decide) hx hy ht hxy

theorem uartSingleRecv_stream_mismatch (w : World (List Nat)) (cmdID : Nat)
    (payload : List Nat) (payloadLen : Nat) (hdr pl : List Nat) (hw : w.chan = hdr ++ pl)
    (hl : hdr.length = 6) (hp : pl.length = replyLength hdr) (hb : ∀ b ∈ hdr ++ pl, b < 256)
    (hck : replyCksum hdr ≠ replyChecksum hdr pl)
    (hfit : REPLY_HDR_LENGTH + replyLength hdr ≤ UART_MAX_DATA_SIZE + 1) :
    completeReply streamChannel w.chan = some (hdr, pl, []) ∧
    (uartSingleRecv streamChannel w cmdID payload payloadLen).2 = (payload, UART_LOCAL_ERROR) := by
  have hrx : completeReply streamChannel w.chan = some (hdr, pl, []) := by
    have := completeReply_stream hdr pl [] hl hp hb
    rw [List.append_nil] at this
    rw [hw, this]
  refine ⟨hrx, ?_⟩
  rw [uartSingleRecv_of_complete streamChannel w cmdID payload payloadLen hdr pl [] hrx hfit,
    uartSingleRecvCheck_eq hdr pl cmdID payload payloadLen hl hp, if_pos hck]

theorem lt_of_mem_set (l : List Nat) (i v : Nat) (h : ∀ b ∈ l, b < 256) (hv : v < 256) :
    ∀ b ∈ l.set i v, b < 256 := by
  intro b hb
  rcases List.mem_or_eq_of_mem_set hb with hb | hb
  · exact h b hb
  · rw [hb]
    exact hv

theorem set_eq_take_cons_drop (l : List Nat) (j v : Nat) (hj : j < l.length) :
    l.set j v = l.take j ++ v :: l.drop (j + 1) ∧
    l = l.take j ++ l.getD j 0 :: l.drop (j + 1) := by
  induction l generalizing j with
  | nil => simp at hj
  | cons a l ih =>
    cases j with
    | zero => simp
    | succ j =>
      have := ih j (by simpa using hj)
      simp only [List.set_cons_succ, List.take_succ_cons, List.drop_succ_cons,
        List.cons_append, List.getD_cons_succ]
      exact ⟨by rw [this.1], by rw [← this.2]⟩

/-! ## Properties of a single receive attempt -/

/-- C3 fails as stated: the frame `66 0 2 0 64 239 5 28` (command `0x42`,
status 0, length 2, payload `5 28`) carries a correct checksum; changing its
byte 2 (low byte of the length field) from 2 to 0 gives a frame that
`uartSingleRecv` accepts with `UART_SUCCESS`, because the checksum of the
truncated frame is the same. -/
theorem uartSingleRecv_single_byte_counterexample :
    completeReply streamChannel [66, 0, 2, 0, 64, 239, 5, 28]
      = some ([66, 0, 2, 0, 64, 239], [5, 28], []) ∧
    replyCksum [66, 0, 2, 0, 64, 239] = replyChecksum [66, 0, 2, 0, 64, 239] [5, 28] ∧
    [66, 0, 2, 0, 64, 239, 5, 28].set 2 0 = [66, 0, 0, 0, 64, 239, 5, 28] ∧
    (uartSingleRecv streamChannel (initWorld ([66, 0, 2, 0, 64, 239, 5, 28].set 2 0) 0)
      0x42 [] 0).2.2 = UART_SUCCESS := by
  decide

/-- C3 (amended): take a reply frame `hdr ++ pl` with correct checksum that
fits the staging buffer (header plus payload at most 8193 bytes) and
change one byte, at position `i`, to a different value `v`; let the
byte-queue channel hold the changed frame and nothing else.  If `i` is not a
byte of the length field (offsets 2 and 3), `uartSingleRecv` reads the whole
changed frame, finds a checksum mismatch and returns `UART_LOCAL_ERROR`.  If
the change makes the length field larger, the payload read comes back short
and `uartSingleRecv` returns `UART_LOCAL_ERROR` as well.  The caller's buffer
is unchanged in both cases. -/
theorem uartSingleRecv_single_byte_change (w : World (List Nat)) (cmdID : Nat)
    (payload : List Nat) (payloadLen : Nat) (hdr pl : List Nat) (i v : Nat)
    (hl : hdr.length = 6) (hp : pl.length = replyLength hdr)
    (hb : ∀ b ∈ hdr ++ pl, b < 256)
    (hfit : REPLY_HDR_LENGTH + replyLength hdr ≤ UART_MAX_DATA_SIZE + 1)
    (hck : replyCksum hdr = replyChecksum hdr pl)
    (hi : i < (hdr ++ pl).length) (hv : v < 256) (hne : (hdr ++ pl).getD i 0 ≠ v)
    (hw : w.chan = (hdr ++ pl).set i v) :
    (i ≠ 2 → i ≠ 3 →
      ∃ hdr' pl', hdr' ++ pl' = (hdr ++ pl).set i v ∧
        completeReply streamChannel w.chan = some (hdr', pl', []) ∧
        replyCksum hdr' ≠ replyChecksum hdr' pl' ∧
        (uartSingleRecv streamChannel w cmdID payload payloadLen).2
          = (payload, UART_LOCAL_ERROR)) ∧
    (replyLength hdr < replyLength (((hdr ++ pl).set i v).take 6) →
      (uartSingleRecv streamChannel w cmdID payload payloadLen).2
        = (payload, UART_LOCAL_ERROR)) := by
  have hb' := lt_of_mem_set (hdr ++ pl) i v hb hv
  constructor
  · intro h2 h3
    have hbp : ∀ b ∈ pl, b < 256 := fun b h => hb b (List.mem_append_right _ h)
    have fin : ∀ hdr' pl', hdr' ++ pl' = (hdr ++ pl).set i v → hdr'.length = 6 →
        pl'.length = replyLength hdr' → replyLength hdr' = replyLength hdr →
        replyCksum hdr' ≠ replyChecksum hdr' pl' →
        ∃ hdr' pl', hdr' ++ pl' = (hdr ++ pl).set i v ∧
          completeReply streamChannel w.chan = some (hdr', pl', []) ∧
          replyCksum hdr' ≠ replyChecksum hdr' pl' ∧
          (uartSingleRecv streamChannel w cmdID payload payloadLen).2
            = (payload, UART_LOCAL_ERROR) := by
      intro hdr' pl' he hl' hp' hlen' hck'
      obtain ⟨hrx, hres⟩ := uartSingleRecv_stream_mismatch w cmdID payload payloadLen hdr' pl'
        (by rw [hw, he]) hl' hp' (by rw [he]; exact hb') hck' (by rw [hlen']; exact hfit)
      exact ⟨hdr', pl', he, hrx, hck', hres⟩
    obtain ⟨b0, b1, b2, b3, b4, b5, rfl⟩ := list_length_six _ hl
    have hbs : b0 < 256 ∧ b1 < 256 ∧ b2 < 256 ∧ b3 < 256 ∧ b4 < 256 ∧ b5 < 256 := by
      refine ⟨hb b0 ?_, hb b1 ?_, hb b2 ?_, hb b3 ?_, hb b4 ?_, hb b5 ?_⟩ <;> simp
    have htail : ∀ t : List Nat, (∀ b ∈ t, b < 256) → ∀ b ∈ t ++ pl, b < 256 := by
      intro t ht b hb1
      rcases List.mem_append.1 hb1 with h | h
      · exact ht b h
      · exact hbp b h
    rcases i with _ | _ | _ | _ | _ | _ | j
    · simp only [List.cons_append, List.getD_cons_zero] at hne
      apply fin [v, b1, b2, b3, b4, b5] pl rfl rfl hp rfl
      refine replyCksum_ne_of_change [b0, b1, b2, b3, b4, b5] [v, b1, b2, b3, b4, b5] pl pl []
        (b1 :: b2 :: b3 :: 0 :: 0 :: pl) b0 v rfl rfl hck rfl rfl rfl hbs.1 hv ?_ hne
      intro b hb1
      simp only [List.mem_cons] at hb1
      rcases hb1 with h | h | h | h | h | h
      · omega
      · omega
      · omega
      · omega
      · omega
      · exact hbp b h
    · simp only [List.cons_append, List.getD_cons_succ, List.getD_cons_zero] at hne
      apply fin [b0, v, b2, b3, b4, b5] pl rfl rfl hp rfl
      refine replyCksum_ne_of_change [b0, b1, b2, b3, b4, b5] [b0, v, b2, b3, b4, b5] pl pl [b0]
        (b2 :: b3 :: 0 :: 0 :: pl) b1 v rfl rfl hck rfl rfl rfl hbs.2.1 hv ?_ hne
      intro b hb1
      simp only [List.mem_cons] at hb1
      rcases hb1 with h | h | h | h | h
      · omega
      · omega
      · omega
      · omega
      · exact hbp b h
    · exact absurd rfl h2
    · exact absurd rfl h3
    · simp only [List.cons_append, List.getD_cons_succ, List.getD_cons_zero] at hne
      apply fin [b0, b1, b2, b3, v, b5] pl rfl rfl hp rfl
      have e : replyChecksum [b0, b1, b2, b3, v, b5] pl = replyChecksum [b0, b1, b2, b3, b4, b5] pl := rfl
      rw [e, ← hck]
      simp only [replyCksum, List.getD_cons_succ, List.getD_cons_zero]
      omega
    · simp only [List.cons_append, List.getD_cons_succ, List.getD_cons_zero] at hne
      apply fin [b0, b1, b2, b3, b4, v] pl rfl rfl hp rfl
      have e : replyChecksum [b0, b1, b2, b3, b4, v] pl = replyChecksum [b0, b1, b2, b3, b4, b5] pl := rfl
      rw [e, ← hck]
      simp only [replyCksum, List.getD_cons_succ, List.getD_cons_zero]
      omega
    · have hj : j < pl.length := by
        simp only [List.length_append, List.length_cons, List.length_nil] at hi
        omega
      simp only [List.cons_append, List.getD_cons_succ, List.nil_append] at hne
      obtain ⟨e1, e2⟩ := set_eq_take_cons_drop pl j v hj
      apply fin [b0, b1, b2, b3, b4, b5] (pl.set j v) rfl rfl
        (by rw [List.length_set]; exact hp) rfl
      refine replyCksum_ne_of_change [b0, b1, b2, b3, b4, b5] [b0, b1, b2, b3, b4, b5] pl (pl.set j v)
        ([b0, b1, b2, b3, 0, 0] ++ pl.take j) (pl.drop (j + 1)) (pl.getD j 0) v rfl rfl hck rfl
        ?_ ?_ ?_ hv ?_ hne
      · rw [List.append_assoc, ← e2]
        rfl
      · rw [List.append_assoc, ← e1]
        rfl
      · rw [List.getD_eq_getElem _ _ hj]
        exact hbp _ (List.getElem_mem _)
      · intro b hb1
        exact hbp b (List.mem_of_mem_drop hb1)
  · intro hlen
    have hlen6 : 6 ≤ ((hdr ++ pl).set i v).length := by
      rw [List.length_set, List.length_append]
      omega
    have hl' : (((hdr ++ pl).set i v).take 6).length = 6 := by
      rw [List.length_take]
      omega
    have hp' : (((hdr ++ pl).set i v).drop 6).length = pl.length := by
      rw [List.length_drop, List.length_set, List.length_append]
      omega
    refine uartSingleRecv_stream_short w cmdID payload payloadLen
      (((hdr ++ pl).set i v).take 6) (((hdr ++ pl).set i v).drop 6)
      (by rw [List.take_append_drop]; exact hw) hl'
      (by rw [List.take_append_drop]; exact hb') ?_ (by rw [hp', hp]; exact hfit)
    rw [hp', hp]
    exact hlen

theorem uartSingleRecv_single_byte_change_witness :
    (uartSingleRecv streamChannel (initWorld ([66, 0, 2, 0, 64, 239, 5, 28].set 6 9) 0)
      0x42 [] 0).2 = ([], UART_LOCAL_ERROR) := by
  obtain ⟨_, _, _, _, _, h⟩ :=
    (uartSingleRecv_single_byte_change (initWorld ([66, 0, 2, 0, 64, 239, 5, 28].set 6 9) 0)
      0x42 [] 0 [66, 0, 2, 0, 64, 239] [5, 28] 6 9 rfl (by decide) (by decide) (by decide)
      (by decide) (by decide) (by decide) (by decide) rfl).1 (by decide) (by decide)
  exact h

/-- C5 fails as stated: a reply with valid checksum, command id `0x41`
instead of the expected `0x42` and status `0x02` is answered with the status
`0x02`, not with `UART_LOCAL_ERROR`. -/
theorem uartSingleRecv_cmd_mismatch_counterexample :
    completeReply streamChannel [0x41, 0x02, 0, 0, 35, 101] = some ([0x41, 0x02, 0, 0, 35, 101], [], []) ∧
    replyCksum [0x41, 0x02, 0, 0, 35, 101] = replyChecksum [0x41, 0x02, 0, 0, 35, 101] [] ∧
    replyCmdID [0x41, 0x02, 0, 0, 35, 101] ≠ 0x42 ∧
    (uartSingleRecv streamChannel (initWorld [0x41, 0x02, 0, 0, 35, 101] 0) 0x42 [] 0).2.2 = 0x02 ∧
    (uartSingleRecv streamChannel (initWorld [0x41, 0x02, 0, 0, 35, 101] 0) 0x42 [] 0).2.2
      ≠ UART_LOCAL_ERROR := by
  decide

/-- C5 (amended): for a completely received reply that fits the staging
buffer (header plus length field at most `UART_MAX_DATA_SIZE + 1` bytes), with
valid checksum, whose command id differs from the expected one, `uartSingleRecv` returns
`UART_LOCAL_ERROR` when the status of the reply is `0x00` or at least `0x20`,
and returns the status itself when it lies in `0x01..0x1F`; the caller's
buffer is unchanged in both cases. -/
theorem uartSingleRecv_cmd_mismatch {σ : Type} (ch : Channel σ) (w : World σ)
    (cmdID : Nat) (payload : List Nat) (payloadLen : Nat) (hdr pl : List Nat) (c : σ)
    (hrx : completeReply ch w.chan = some (hdr, pl, c))
    (hfit : REPLY_HDR_LENGTH + replyLength hdr ≤ UART_MAX_DATA_SIZE + 1)
    (hck : replyCksum hdr = replyChecksum hdr pl)
    (hcmd : replyCmdID hdr ≠ cmdID) :
    (replyStatus hdr = 0 ∨ 0x20 ≤ replyStatus hdr →
      (uartSingleRecv ch w cmdID payload payloadLen).2 = (payload, UART_LOCAL_ERROR)) ∧
    (replyStatus hdr ≠ 0 ∧ replyStatus hdr < 0x20 →
      (uartSingleRecv ch w cmdID payload payloadLen).2 = (payload, replyStatus hdr)) := by
  obtain ⟨hl, hp, _, _⟩ := completeReply_spec ch w.chan c hdr pl hrx
  rw [uartSingleRecv_of_complete ch w cmdID payload payloadLen hdr pl c hrx hfit,
    uartSingleRecvCheck_eq hdr pl cmdID payload payloadLen hl hp]
  simp only [hck, ne_eq, not_true_eq_false, if_false]
  constructor
  · intro hs
    have hst : ¬ (¬ replyStatus hdr = 0 ∧ replyStatus hdr < 0x20) := by omega
    rw [if_neg hst, if_pos hcmd]
  · intro hs
    rw [if_pos hs]

theorem uartSingleRecv_cmd_mismatch_witness :
    (uartSingleRecv streamChannel (initWorld [0x41, 0, 0, 0, 160, 33] 0) 0x42 [7] 1).2
      = ([7], UART_LOCAL_ERROR) :=
  (uartSingleRecv_cmd_mismatch streamChannel (initWorld [0x41, 0, 0, 0, 160, 33] 0) 0x42 [7] 1
    [0x41, 0, 0, 0, 160, 33] [] [] (by decide) (by decide) (by decide) (by decide)).1 (by decide)

/-- C6 fails as stated: a reply with valid checksum, the expected command id
`0x42`, length 0 and status `0x21` makes `uartSingleRecv` return
`UART_SUCCESS`, not the status `0x21`. -/
theorem uartSingleRecv_hw_status_counterexample :
    completeReply streamChannel [0x42, 0x21, 0, 0, 165, 77]
      = some ([0x42, 0x21, 0, 0, 165, 77], [], []) ∧
    replyCksum [0x42, 0x21, 0, 0, 165, 77] = replyChecksum [0x42, 0x21, 0, 0, 165, 77] [] ∧
    replyStatus [0x42, 0x21, 0, 0, 165, 77] = 0x21 ∧
    (uartSingleRecv streamChannel (initWorld [0x42, 0x21, 0, 0, 165, 77] 3) 0x42 [] 0).2.2
      = UART_SUCCESS ∧
    (uartSingleRecv streamChannel (initWorld [0x42, 0x21, 0, 0, 165, 77] 3) 0x42 [] 0).2.2
      ≠ 0x21 := by
  decide

/-- C6 (amended): for a completely received reply that fits the staging
buffer (header plus length field at most `UART_MAX_DATA_SIZE + 1` bytes), with
valid checksum and a status of at least `0x20`, `uartSingleRecv` does not return on the status; it
goes on to the command-id and length checks and returns `UART_LOCAL_ERROR`
for a command-id mismatch or a length above `payloadLen`, and `UART_SUCCESS`
otherwise.  In the latter case `uartRecv`, for every retry count, returns
that result after the single receive attempt: the log gains the reads of the
reply and the return of `uartSingleRecv`, and no write. -/
theorem uartSingleRecv_hw_status {σ : Type} (ch : Channel σ) (w : World σ)
    (cmdID : Nat) (payload : List Nat) (payloadLen fuel : Nat) (hdr pl : List Nat) (c : σ)
    (hrx : completeReply ch w.chan = some (hdr, pl, c))
    (hfit : REPLY_HDR_LENGTH + replyLength hdr ≤ UART_MAX_DATA_SIZE + 1)
    (hck : replyCksum hdr = replyChecksum hdr pl)
    (hst : 0x20 ≤ replyStatus hdr) :
    (uartSingleRecv ch w cmdID payload payloadLen).2.2 =
      (if replyCmdID hdr ≠ cmdID then UART_LOCAL_ERROR
       else if replyLength hdr = 0 then UART_SUCCESS
       else if payloadLen < replyLength hdr then UART_LOCAL_ERROR
       else UART_SUCCESS) ∧
    (replyCmdID hdr = cmdID → replyLength hdr ≤ payloadLen →
      uartRecv fuel ch w cmdID payload payloadLen
        = some (uartSingleRecv ch w cmdID payload payloadLen) ∧
      (uartSingleRecv ch w cmdID payload payloadLen).2.2 = UART_SUCCESS ∧
      (uartSingleRecv ch w cmdID payload payloadLen).1.trace
        = w.trace ++ replyReads hdr pl ++ [Event.recvReturned UART_SUCCESS]) := by
  obtain ⟨hl, hp, _, _⟩ := completeReply_spec ch w.chan c hdr pl hrx
  have hst' : ¬ (replyStatus hdr ≠ 0 ∧ replyStatus hdr < 0x20) := by omega
  have key : (uartSingleRecv ch w cmdID payload payloadLen).2.2 =
      (if replyCmdID hdr ≠ cmdID then UART_LOCAL_ERROR
       else if replyLength hdr = 0 then UART_SUCCESS
       else if payloadLen < replyLength hdr then UART_LOCAL_ERROR
       else UART_SUCCESS) := by
    rw [uartSingleRecv_of_complete ch w cmdID payload payloadLen hdr pl c hrx hfit,
      uartSingleRecvCheck_eq hdr pl cmdID payload payloadLen hl hp]
    simp only [hck, ne_eq, not_true_eq_false, if_false]
    rw [if_neg hst']
    split_ifs <;> rfl
  refine ⟨key, ?_⟩
  intro hcmd hle
  have hs : (uartSingleRecv ch w cmdID payload payloadLen).2.2 = UART_SUCCESS := by
    rw [key]
    have : ¬ payloadLen < replyLength hdr := by omega
    simp [hcmd, this]
  refine ⟨uartRecv_of_first ch w cmdID payload payloadLen fuel (Or.inl hs), hs, ?_⟩
  have e := uartSingleRecv_of_complete ch w cmdID payload payloadLen hdr pl c hrx hfit
  rw [e] at hs
  rw [e]
  simp only at hs
  simp only [hs]

theorem uartSingleRecv_hw_status_witness :
    uartRecv 0 streamChannel (initWorld [0x42, 0x21, 2, 0, 172, 138, 5, 6] 3) 0x42 [0, 0] 2
      = some (uartSingleRecv streamChannel (initWorld [0x42, 0x21, 2, 0, 172, 138, 5, 6] 3)
          0x42 [0, 0] 2) ∧
    (uartSingleRecv streamChannel (initWorld [0x42, 0x21, 2, 0, 172, 138, 5, 6] 3)
      0x42 [0, 0] 2).2.2 = UART_SUCCESS :=
  ⟨((uartSingleRecv_hw_status streamChannel (initWorld [0x42, 0x21, 2, 0, 172, 138, 5, 6] 3)
      0x42 [0, 0] 2 0 [0x42, 0x21, 2, 0, 172, 138] [5, 6] [] (by decide) (by decide)
      (by decide) (by decide)).2 (by decide) (by decide)).1, by decide⟩

/-! ## Properties of the retry loop -/

/-- C7: for a retry count `N` with `0 < N < 2^31` and every channel,
`uartRecv` returns (a fuel of `N` loop iterations is enough); it makes at
most `N` resend attempts and at most `N + 1` receive attempts; the first
attempt is a receive, and two consecutive attempts are always a failed
receive followed by a resend or a successful resend followed by a receive,
so that nothing follows a successful receive or a failed resend; and when no
receive succeeds and no resend fails there are exactly `N` resends and
`N + 1` receives. -/
theorem uartRecv_retry_bound {σ : Type} (ch : Channel σ) (w : World σ) (cmdID : Nat)
    (payload : List Nat) (payloadLen fuel : Nat)
    (hpos : 0 < w.numOfRetries) (hlt : w.numOfRetries < 2147483648)
    (hf : w.numOfRetries ≤ fuel) :
    ∃ r evs, uartRecv fuel ch w cmdID payload payloadLen = some r ∧
      r.1.trace = w.trace ++ evs ∧
      (attempts evs).countP Event.isResend ≤ w.numOfRetries ∧
      (attempts evs).countP Event.isRecv ≤ w.numOfRetries + 1 ∧
      (∃ s rest, attempts evs = Event.recvReturned s :: rest) ∧
      List.Chain' Follows (attempts evs) ∧
      (Event.recvReturned UART_SUCCESS ∉ attempts evs →
        (∀ st, Event.resendReturned st ∈ attempts evs → st = 0) →
        (attempts evs).countP Event.isResend = w.numOfRetries ∧
        (attempts evs).countP Event.isRecv = w.numOfRetries + 1) := by
  obtain ⟨r, evs, hres, hx, hcase⟩ :=
    uartRecv_spec ch w cmdID payload payloadLen fuel (by omega) hf
  refine ⟨r, evs, hres, hx.trace_eq, ?_⟩
  rcases hcase with ⟨h0, _, ha⟩ | ⟨h1, _, la, ha, hla⟩
  · rw [ha]
    refine ⟨by simp [Event.isResend], by simp [Event.isRecv], ⟨_, _, rfl⟩, by simp, ?_⟩
    intro hno _
    rcases h0 with h0 | h0
    · rw [h0] at hno
      simp at hno
    · omega
  · rw [ha]
    have hc := hla.count_le (by omega)
    obtain ⟨st, tl, rfl⟩ := hla.head_resend
    refine ⟨?_, ?_, ⟨_, _, rfl⟩, ?_, ?_⟩
    · rw [List.countP_cons]
      simp only [Event.isResend]
      simp
      omega
    · rw [List.countP_cons]
      simp only [Event.isRecv]
      simp
      omega
    · rw [List.chain'_cons]
      exact ⟨h1, hla.chain⟩
    · intro hno hall
      have he := hla.count_eq (by omega) (fun hm => hno (List.mem_cons_of_mem _ hm))
        (fun st hm => hall st (List.mem_cons_of_mem _ hm))
      rw [List.countP_cons, List.countP_cons (p := Event.isRecv)]
      simp only [Event.isResend, Event.isRecv]
      simp
      omega

theorem uartRecv_retry_bound_witness :
    ∃ r evs, uartRecv 2 streamChannel (initWorld [] 2) 0x42 [] 0 = some r ∧
      r.1.trace = (initWorld ([] : List Nat) 2).trace ++ evs ∧
      (attempts evs).countP Event.isResend ≤ 2 ∧
      (attempts evs).countP Event.isRecv ≤ 2 + 1 ∧
      (∃ s rest, attempts evs = Event.recvReturned s :: rest) ∧
      List.Chain' Follows (attempts evs) ∧
      (Event.recvReturned UART_SUCCESS ∉ attempts evs →
        (∀ st, Event.resendReturned st ∈ attempts evs → st = 0) →
        (attempts evs).countP Event.isResend = 2 ∧
        (attempts evs).countP Event.isRecv = 2 + 1) :=
  uartRecv_retry_bound streamChannel (initWorld [] 2) 0x42 [] 0 2 (by decide) (by decide)
    (by decide)

/-- C8: with `numOfRetries = 0`, `uartRecv` returns exactly what the single
call of `uartSingleRecv` returns (state, caller's buffer and result); the log
gains one receive attempt and no call of `UART1.write`. -/
theorem uartRecv_zero_retries {σ : Type} (ch : Channel σ) (w : World σ) (cmdID : Nat)
    (payload : List Nat) (payloadLen fuel : Nat) (h0 : w.numOfRetries = 0) :
    ∃ evs, uartRecv fuel ch w cmdID payload payloadLen
        = some (uartSingleRecv ch w cmdID payload payloadLen) ∧
      (uartSingleRecv ch w cmdID payload payloadLen).1.trace = w.trace ++ evs ∧
      attempts evs = [Event.recvReturned (uartSingleRecv ch w cmdID payload payloadLen).2.2] ∧
      ∀ e ∈ evs, e.isWrite = false := by
  obtain ⟨e0, hx0, ha0⟩ := uartSingleRecv_extends ch w cmdID payload payloadLen
  refine ⟨_, uartRecv_of_first ch w cmdID payload payloadLen fuel (Or.inr h0), hx0.trace_eq,
    attempts_recv e0 _ ha0, ?_⟩
  intro e he
  rw [List.mem_append] at he
  rcases he with he | he
  · exact (ha0 e he).1
  · rw [List.mem_singleton] at he
    subst he
    rfl

theorem uartRecv_zero_retries_witness :
    ∃ evs, uartRecv 0 streamChannel (initWorld [] 0) 0x42 [] 0
        = some (uartSingleRecv streamChannel (initWorld [] 0) 0x42 [] 0) ∧
      (uartSingleRecv streamChannel (initWorld [] 0) 0x42 [] 0).1.trace
        = (initWorld ([] : List Nat) 0).trace ++ evs ∧
      attempts evs = [Event.recvReturned
        (uartSingleRecv streamChannel (initWorld [] 0) 0x42 [] 0).2.2] ∧
      ∀ e ∈ evs, e.isWrite = false :=
  uartRecv_zero_retries streamChannel (initWorld [] 0) 0x42 [] 0 0 rfl

/-- C9 fails as stated: with retry count 1, after the request for `0x42` was
sent, a reply with valid checksum and status `0x02`, and likewise a reply
whose length 1 exceeds the caller's capacity 0, is followed by a resend and
a second receive attempt, and `uartRecv` returns the result of that second
attempt. -/
theorem uartRecv_nonretryable_counterexample :
    (uartSingleRecv streamChannel (initWorld [0x42, 0x02, 0, 0, 195, 171] 1) 0x42 [] 0).2.2
      = UART_BAD_PARAM ∧
    (uartRecv 1 streamChannel
        (uartSend streamChannel (initWorld [0x42, 0x02, 0, 0, 195, 171] 1) 0x42 none 0).1
        0x42 [] 0).map (fun r => (attempts r.1.trace, r.2.2))
      = some ([Event.recvReturned 0x02, Event.resendReturned 0,
          Event.recvReturned UART_LOCAL_ERROR], UART_LOCAL_ERROR) ∧
    replyLength [0x42, 0, 1, 0, 53, 182] = 1 ∧
    (uartRecv 1 streamChannel
        (uartSend streamChannel (initWorld [0x42, 0, 1, 0, 53, 182, 5] 1) 0x42 none 0).1
        0x42 [] 0).map (fun r => (attempts r.1.trace, r.2.2))
      = some ([Event.recvReturned UART_LOCAL_ERROR, Event.resendReturned 0,
          Event.recvReturned UART_LOCAL_ERROR], UART_LOCAL_ERROR) := by
  decide

/-- C9 (amended): when the first receive attempt of `uartRecv` reads
completely a reply that fits the staging buffer (header plus length field at
most `UART_MAX_DATA_SIZE + 1` bytes) and ends with a
device status in `0x01..0x1F`, or with the buffer-too-small outcome (valid
checksum, status not in `0x01..0x1F`, expected command id, length above
`payloadLen`), `uartSingleRecv` returns that status resp. `UART_LOCAL_ERROR`;
`uartRecv` returns it at once, with that receive as its only attempt, when
`numOfRetries` is 0, and when `numOfRetries` is not 0 its next attempt is a
resend. -/
theorem uartRecv_nonretryable {σ : Type} (ch : Channel σ) (w : World σ)
    (cmdID : Nat) (payload : List Nat) (payloadLen fuel : Nat) (hdr pl : List Nat) (c : σ)
    (hrx : completeReply ch w.chan = some (hdr, pl, c))
    (hfit : REPLY_HDR_LENGTH + replyLength hdr ≤ UART_MAX_DATA_SIZE + 1)
    (hck : replyCksum hdr = replyChecksum hdr pl)
    (hcase : (replyStatus hdr ≠ 0 ∧ replyStatus hdr < 0x20) ∨
      (¬ (replyStatus hdr ≠ 0 ∧ replyStatus hdr < 0x20) ∧ replyCmdID hdr = cmdID ∧
        payloadLen < replyLength hdr))
    (hN : w.numOfRetries < 4294967296) (hf : w.numOfRetries ≤ fuel) :
    (uartSingleRecv ch w cmdID payload payloadLen).2.2 =
      (if replyStatus hdr ≠ 0 ∧ replyStatus hdr < 0x20 then replyStatus hdr
       else UART_LOCAL_ERROR) ∧
    ∃ r evs, uartRecv fuel ch w cmdID payload payloadLen = some r ∧
      r.1.trace = w.trace ++ evs ∧
      (w.numOfRetries = 0 → r = uartSingleRecv ch w cmdID payload payloadLen ∧
        attempts evs = [Event.recvReturned (uartSingleRecv ch w cmdID payload payloadLen).2.2]) ∧
      (w.numOfRetries ≠ 0 → ∃ st rest, attempts evs =
        Event.recvReturned (uartSingleRecv ch w cmdID payload payloadLen).2.2 ::
          Event.resendReturned st :: rest) := by
  obtain ⟨hl, hp, _, _⟩ := completeReply_spec ch w.chan c hdr pl hrx
  have key : (uartSingleRecv ch w cmdID payload payloadLen).2.2 =
      (if replyStatus hdr ≠ 0 ∧ replyStatus hdr < 0x20 then replyStatus hdr
       else UART_LOCAL_ERROR) := by
    rw [uartSingleRecv_of_complete ch w cmdID payload payloadLen hdr pl c hrx hfit,
      uartSingleRecvCheck_eq hdr pl cmdID payload payloadLen hl hp]
    simp only [hck, ne_eq, not_true_eq_false, if_false]
    rcases hcase with hs | ⟨hs, hcmd, hlen⟩
    · rw [if_pos hs, if_pos hs]
    · have h0 : ¬ replyLength hdr = 0 := by omega
      rw [if_neg hs, if_neg hs, if_neg (by simpa using hcmd), if_neg h0, if_pos hlen]
  have hne : (uartSingleRecv ch w cmdID payload payloadLen).2.2 ≠ UART_SUCCESS := by
    rw [key]
    rcases hcase with hs | ⟨hs, _, _⟩
    · rw [if_pos hs]
      exact hs.1
    · rw [if_neg hs]
      decide
  refine ⟨key, ?_⟩
  obtain ⟨r, evs, hres, hx, hcase2⟩ := uartRecv_spec ch w cmdID payload payloadLen fuel hN hf
  refine ⟨r, evs, hres, hx.trace_eq, ?_, ?_⟩
  · intro h0
    rcases hcase2 with ⟨_, hr, ha⟩ | ⟨_, hn, _⟩
    · exact ⟨hr, ha⟩
    · exact absurd h0 hn
  · intro hn
    rcases hcase2 with ⟨h0, _, _⟩ | ⟨_, _, la, ha, hla⟩
    · rcases h0 with h0 | h0
      · exact absurd h0 hne
      · exact absurd h0 hn
    · obtain ⟨st, tl, rfl⟩ := hla.head_resend
      exact ⟨st, tl, ha⟩

theorem uartRecv_nonretryable_witness :
    ∃ r evs, uartRecv 1 streamChannel (initWorld [0x42, 0x02, 0, 0, 195, 171] 1) 0x42 [] 0
        = some r ∧
      r.1.trace = (initWorld [0x42, 0x02, 0, 0, 195, 171] 1).trace ++ evs ∧
      ((initWorld [0x42, 0x02, 0, 0, 195, 171] 1).numOfRetries = 0 →
        r = uartSingleRecv streamChannel (initWorld [0x42, 0x02, 0, 0, 195, 171] 1) 0x42 [] 0 ∧
        attempts evs = [Event.recvReturned (uartSingleRecv streamChannel
          (initWorld [0x42, 0x02, 0, 0, 195, 171] 1) 0x42 [] 0).2.2]) ∧
      ((initWorld [0x42, 0x02, 0, 0, 195, 171] 1).numOfRetries ≠ 0 →
        ∃ st rest, attempts evs =
          Event.recvReturned (uartSingleRecv streamChannel
            (initWorld [0x42, 0x02, 0, 0, 195, 171] 1) 0x42 [] 0).2.2 ::
            Event.resendReturned st :: rest) :=
  (uartRecv_nonretryable streamChannel (initWorld [0x42, 0x02, 0, 0, 195, 171] 1) 0x42 [] 0 1
    [0x42, 0x02, 0, 0, 195, 171] [] [] (by decide) (by decide) (by decide) (Or.inl (by decide))
    (by decide) (by decide)).2

/-! ## Properties of the sender and of the retry cache -/

theorem readBytes_take (p : List Nat) (n : Nat) (h : n ≤ p.length) :
    readBytes (p.take n) n = readBytes p n := by
  rw [readBytes_of_le p n h, readBytes_of_le (p.take n) n (by simp; omega), List.take_take]
  simp

theorem rqstHeader_bytes_length (h : uartRqstHeader_t) : h.bytes.length = 8 := rfl

theorem readBytes_rqstHeader (h : uartRqstHeader_t) : readBytes h.bytes RQST_HDR_LENGTH = h.bytes :=
  readBytes_self h.bytes

/-- The two-step checksum of `uartSend` is one checksum over header and payload. -/
theorem uartSend_cksum (h : uartRqstHeader_t) (p : List Nat) (n : Nat) (hn : n ≤ p.length) :
    crc_generate p n (crc_generate h.bytes RQST_HDR_LENGTH 0xFFFF)
      = crc_generate (h.bytes ++ p.take n) (RQST_HDR_LENGTH + n) 0xFFFF := by
  have e := crc_generate_append h.bytes (p.take n) n 0xFFFF
  rw [rqstHeader_bytes_length] at e
  rw [show RQST_HDR_LENGTH = 8 from rfl, e]
  unfold crc_generate
  rw [readBytes_take p n hn]

/-- C1: for every command id (a `uint8_t`) and payload length (a `uint16_t`),
with `payloadLen = 0` or a payload of at least `payloadLen` bytes present,
the first thing `uartSend` writes is the 8-byte header made of the fields
`cmdID`, `length = payloadLen`, `reserved = 0`, `cksum`, in that order, where
`cksum` is `crc_generate` with seed `0xFFFF` over the header with `cksum = 0`
followed by the `payloadLen` payload bytes; the payload bytes are written
next, and only when the header went out completely and `payloadLen ≠ 0`. -/
theorem uartSend_header_then_payload {σ : Type} (ch : Channel σ) (w : World σ)
    (cmdID payloadLen : Nat) (payload : Option (List Nat)) (p : List Nat)
    (hc : cmdID < 256) (hlen : payloadLen < 65536)
    (hp : payloadLen = 0 ∨ (payload = some p ∧ payloadLen ≤ p.length)) :
    ∃ ck hdr rc,
      ck = crc_generate
        ((uartRqstHeader_t.mk cmdID payloadLen 0 0).bytes ++ p.take payloadLen)
        (RQST_HDR_LENGTH + payloadLen) 0xFFFF ∧
      ck < 65536 ∧
      hdr = (uartRqstHeader_t.mk cmdID payloadLen 0 ck).bytes ∧
      hdr = [cmdID, 0, payloadLen % 256, payloadLen / 256, 0, 0, ck % 256, ck / 256] ∧
      rc = (ch.write w.chan hdr).1 ∧
      (uartSend ch w cmdID payload payloadLen).1.trace =
        w.trace ++ Event.write hdr rc ::
          (if rc = 8 ∧ payloadLen ≠ 0 then
            [Event.write (p.take payloadLen)
              (ch.write (ch.write w.chan hdr).2 (p.take payloadLen)).1]
           else []) := by
  obtain ⟨ck, hdef⟩ : ∃ ck, ck = crc_generate
        ((uartRqstHeader_t.mk cmdID payloadLen 0 0).bytes ++ p.take payloadLen)
        (RQST_HDR_LENGTH + payloadLen) 0xFFFF := ⟨_, rfl⟩
  have hck : ck < 65536 := by
    rw [hdef]
    exact crc_generate_lt _ _ _ (by decide)
  have hR : ((RQST_HDR_LENGTH : Nat) : Int) = 8 := rfl
  refine ⟨ck, _, _, hdef, hck, rfl, ?_, rfl, ?_⟩
  · have h1 : cmdID % 256 = cmdID := Nat.mod_eq_of_lt hc
    have h2 : cmdID / 256 % 256 = 0 := by omega
    have h3 : payloadLen / 256 % 256 = payloadLen / 256 := by omega
    have h4 : ck / 256 % 256 = ck / 256 := by omega
    simp [uartRqstHeader_t.bytes, u16Bytes, h1, h2, h3, h4]
  · rcases hp with h0 | ⟨rfl, hle⟩
    · subst h0
      have e : ck = crc_generate (uartRqstHeader_t.mk cmdID 0 0 0).bytes RQST_HDR_LENGTH 0xFFFF := by
        rw [hdef]
        simp
      simp only [uartSend, UART1_write, readBytes_rqstHeader, ne_eq, not_true_eq_false,
        false_and, if_false, and_false, ← e, hR]
      split_ifs <;> simp_all
    · by_cases h0 : payloadLen = 0
      · subst h0
        have e : ck = crc_generate (uartRqstHeader_t.mk cmdID 0 0 0).bytes RQST_HDR_LENGTH
            0xFFFF := by
          rw [hdef]
          simp
        simp only [uartSend, UART1_write, readBytes_rqstHeader, ne_eq, not_true_eq_false,
          false_and, if_false, and_false, ← e, hR]
        split_ifs <;> simp_all
      · have e : ck = crc_generate p payloadLen
            (crc_generate (uartRqstHeader_t.mk cmdID payloadLen 0 0).bytes RQST_HDR_LENGTH
              0xFFFF) := by
          rw [hdef, uartSend_cksum _ p payloadLen hle]
        have e2 : readBytes p payloadLen = p.take payloadLen := readBytes_of_le p _ hle
        simp only [uartSend, UART1_write, readBytes_rqstHeader, ne_eq, h0, not_false_eq_true,
          true_and, if_true, and_true, Option.getD_some, ← e, e2, reduceCtorEq, if_false, hR]
        split_ifs <;> simp_all

theorem uartSend_header_then_payload_witness :
    ∃ ck hdr rc,
      ck = crc_generate ((uartRqstHeader_t.mk 0x61 1 0 0).bytes ++ [1].take 1)
        (RQST_HDR_LENGTH + 1) 0xFFFF ∧
      ck < 65536 ∧
      hdr = (uartRqstHeader_t.mk 0x61 1 0 ck).bytes ∧
      hdr = [0x61, 0, 1 % 256, 1 / 256, 0, 0, ck % 256, ck / 256] ∧
      rc = (streamChannel.write (initWorld ([] : List Nat) 0).chan hdr).1 ∧
      (uartSend streamChannel (initWorld [] 0) 0x61 (some [1]) 1).1.trace =
        (initWorld ([] : List Nat) 0).trace ++ Event.write hdr rc ::
          (if rc = 8 ∧ 1 ≠ 0 then
            [Event.write ([1].take 1)
              (streamChannel.write (streamChannel.write (initWorld ([] : List Nat) 0).chan hdr).2
                ([1].take 1)).1]
           else []) :=
  uartSend_header_then_payload streamChannel (initWorld [] 0) 0x61 1 (some [1]) [1]
    (by decide) (by decide) (Or.inr ⟨rfl, by decide⟩)

/-- C10, evaluated at the failing input: with retry count 1, after a
successful send of `CMD_MEAS` with the one-byte payload `{1}`, the send of
`CMD_SHUTDOWN` without payload returns 0 and writes its 8 header bytes only,
but leaves `payloadCacheLen = 1` in the retry cache, and `uartReSend` then
writes the shutdown header followed by the stale payload byte `1`. -/
theorem uartReSend_stale_payload :
    afterMeasSend.payloadCacheLen = 1 ∧
    afterShutdownSend.2 = 0 ∧
    afterShutdownSend.1.trace = [Event.write [0x62, 0, 0, 0, 0, 0, 32, 51] 8] ∧
    afterShutdownSend.1.payloadCacheLen = 1 ∧
    (uartReSend streamChannel afterShutdownSend.1 CMD_SHUTDOWN).1.trace =
      [Event.write [0x62, 0, 0, 0, 0, 0, 32, 51] 8,
       Event.write [0x62, 0, 0, 0, 0, 0, 32, 51] 8, Event.write [1] 1,
       Event.resendReturned 0] := by
  decide

/-! ## Properties of the checksum -/

/-- Two checksum steps with the same result used the same table index and
started from registers with the same low byte. -/
theorem crc_step_eq_parts (c c' b b' : Nat) (hc : c < 65536) (hc' : c' < 65536)
    (hb : b < 256) (hb' : b' < 256) (h : crc_step c b = crc_step c' b') :
    (c >>> 8) ^^^ b = (c' >>> 8) ^^^ b' ∧ c % 256 = c' % 256 := by
  have hh : c >>> 8 < 2 ^ 8 := by
    rw [Nat.shiftRight_eq_div_pow]; omega
  have hh' : c' >>> 8 < 2 ^ 8 := by
    rw [Nat.shiftRight_eq_div_pow]; omega
  have h1 : crc_step c b % 256 = crc_step c' b' % 256 := by rw [h]
  rw [crc_step_low, crc_step_low] at h1
  have h2 := crc_table_low_inj _ _ (Nat.xor_lt_two_pow hh (by simpa using hb))
    (Nat.xor_lt_two_pow hh' (by simpa using hb')) h1
  refine ⟨h2, ?_⟩
  unfold crc_step at h
  rw [h2] at h
  have e := xor_mod_two_pow_eq (c <<< 8) (crc_table.getD ((c' >>> 8) ^^^ b') 0) 16
  have e' := xor_mod_two_pow_eq (c' <<< 8) (crc_table.getD ((c' >>> 8) ^^^ b') 0) 16
  have h4 : (c <<< 8) % 2 ^ 16 = (c' <<< 8) % 2 ^ 16 := by
    apply Nat.xor_left_injective (n := crc_table.getD ((c' >>> 8) ^^^ b') 0 % 2 ^ 16)
    show (c <<< 8) % 2 ^ 16 ^^^ _ = (c' <<< 8) % 2 ^ 16 ^^^ _
    rw [← e, ← e']
    simpa using h
  rw [Nat.shiftLeft_eq, Nat.shiftLeft_eq] at h4
  omega

/-- C16: `crc_generate` is order-sensitive on two bytes: for every 16-bit
seed and every two distinct byte values `a`, `b`, the checksum of `[a, b]`
differs from the checksum of `[b, a]`. -/
theorem crc_generate_order_sensitive (s a b : Nat) (hs : s < 65536) (ha : a < 256)
    (hb : b < 256) (hab : a ≠ b) :
    crc_generate [a, b] 2 s ≠ crc_generate [b, a] 2 s := by
  intro h
  have h' : crc_step (crc_step s a) b = crc_step (crc_step s b) a := h
  obtain ⟨_, hlow⟩ := crc_step_eq_parts _ _ b a (crc_step_lt s a) (crc_step_lt s b) hb ha h'
  rw [crc_step_low, crc_step_low] at hlow
  have hh : s >>> 8 < 2 ^ 8 := by
    rw [Nat.shiftRight_eq_div_pow]; omega
  have h2 := crc_table_low_inj _ _ (Nat.xor_lt_two_pow hh (by simpa using ha))
    (Nat.xor_lt_two_pow hh (by simpa using hb)) hlow
  exact hab (Nat.xor_right_injective h2)

theorem crc_generate_order_sensitive_witness :
    crc_generate [1, 2] 2 0xFFFF ≠ crc_generate [2, 1] 2 0xFFFF :=
  crc_generate_order_sensitive 0xFFFF 1 2 (by decide) (by decide) (by decide) (by decide)

theorem shiftLeft_one_xor (x y : Nat) : (x ^^^ y) <<< 1 = (x <<< 1) ^^^ (y <<< 1) := by
  apply Nat.eq_of_testBit_eq
  intro j
  simp only [Nat.testBit_shiftLeft, Nat.testBit_xor]
  cases decide (j ≥ 1) <;> simp

/-- The bit step of the reference CRC is linear for XOR. -/
theorem crc_bit_xor (x y : Nat) : crc_bit (x ^^^ y) = crc_bit x ^^^ crc_bit y := by
  have m := xor_mod_two_pow_eq
  have h16 : (65536 : Nat) = 2 ^ 16 := by norm_num
  unfold crc_bit
  rw [Nat.testBit_xor, shiftLeft_one_xor]
  cases hx : x.testBit 15 <;> cases hy : y.testBit 15 <;>
    simp only [Bool.xor_false, Bool.xor_true, Bool.not_false, Bool.not_true, if_true, if_false,
      Bool.false_eq_true, h16, m]
  · rw [Nat.xor_assoc]
  · rw [Nat.xor_assoc, Nat.xor_comm (y <<< 1 % 2 ^ 16), ← Nat.xor_assoc]
  · rw [Nat.xor_assoc, ← Nat.xor_assoc (4129 % 2 ^ 16), Nat.xor_comm (4129 % 2 ^ 16),
      Nat.xor_assoc (y <<< 1 % 2 ^ 16), Nat.xor_self, Nat.xor_zero]

theorem crc_bits_xor (n x y : Nat) : crc_bits n (x ^^^ y) = crc_bits n x ^^^ crc_bits n y := by
  induction n generalizing x y with
  | zero => rfl
  | succ n ih => simp only [crc_bits, crc_bit_xor, ih]

set_option maxRecDepth 100000 in
theorem crc_bits_low : ∀ l < 256, crc_bits 8 l = l <<< 8 := by decide

set_option maxRecDepth 1000000 in
theorem crc_table_eq_bits : ∀ i < 256, crc_table.getD i 0 = crc_bits 8 (i <<< 8) := by decide

theorem xor_shiftLeft_split (c b : Nat) :
    c ^^^ (b <<< 8) = (((c >>> 8) ^^^ b) <<< 8) ^^^ (c % 256) := by
  apply Nat.eq_of_testBit_eq
  intro j
  have h : (256 : Nat) = 2 ^ 8 := by norm_num
  simp only [h, Nat.testBit_shiftLeft, Nat.testBit_xor, Nat.testBit_shiftRight,
    Nat.testBit_mod_two_pow]
  by_cases hj : 8 ≤ j
  · have e : 8 + (j - 8) = j := by omega
    have h8 : ¬ j < 8 := by omega
    simp [hj, e, h8]
  · simp [hj]
    intro _
    omega

/-- One table-driven step equals eight bit steps of the reference CRC. -/
theorem crc_step_eq_bitwise (c b : Nat) (hc : c < 65536) (hb : b < 256) :
    crc_step c b = crc_bitwise_byte c b := by
  have hh : c >>> 8 < 2 ^ 8 := by
    rw [Nat.shiftRight_eq_div_pow]; omega
  have hi : (c >>> 8) ^^^ b < 256 := Nat.xor_lt_two_pow hh (by simpa using hb)
  unfold crc_bitwise_byte
  rw [xor_shiftLeft_split, crc_bits_xor, crc_bits_low (c % 256) (Nat.mod_lt _ (by decide)),
    ← crc_table_eq_bits _ hi]
  unfold crc_step
  have e := xor_mod_two_pow_eq (c <<< 8) (crc_table.getD ((c >>> 8) ^^^ b) 0) 16
  have h16 : (65536 : Nat) = 2 ^ 16 := by norm_num
  rw [h16, e, Nat.mod_eq_of_lt (a := crc_table.getD ((c >>> 8) ^^^ b) 0)
    (by rw [← h16]; exact crc_table_lt _)]
  have e2 : (c <<< 8) % 2 ^ 16 = (c % 256) <<< 8 := by
    rw [Nat.shiftLeft_eq, Nat.shiftLeft_eq]
    omega
  rw [e2, Nat.xor_comm]

theorem foldl_crc_step_eq_bitwise (l : List Nat) (s : Nat) (hs : s < 65536)
    (hl : ∀ b ∈ l, b < 256) : l.foldl crc_step s = crc_bitwise l s := by
  induction l generalizing s with
  | nil => rfl
  | cons b l ih =>
    unfold crc_bitwise
    rw [List.foldl_cons, List.foldl_cons,
      ← crc_step_eq_bitwise s b hs (hl b (List.mem_cons_self _ _))]
    exact ih _ (crc_step_lt s b) (fun x hx => hl x (List.mem_cons_of_mem _ hx))

/-- C17: the table-driven `crc_generate` is the bit-by-bit CRC-16 with
polynomial `0x1021` (most significant bit first, no reflection, no final
XOR): every entry `crc_table[i]` is the result of eight bit steps applied to
`i << 8`; for every sequence of bytes and every 16-bit seed `crc_generate`
returns what the bitwise reference returns; and with seed `0xFFFF` the ASCII
bytes of "123456789" give `0x29B1`. -/
theorem crc_generate_eq_bitwise :
    (∀ i < 256, crc_table.getD i 0 = crc_bits 8 (i <<< 8)) ∧
    (∀ (bytes : List Nat) (s : Nat), s < 65536 → (∀ b ∈ bytes, b < 256) →
      crc_generate bytes bytes.length s = crc_bitwise bytes s) ∧
    crc_generate [0x31, 0x32, 0x33, 0x34, 0x35, 0x36, 0x37, 0x38, 0x39] 9 0xFFFF = 0x29B1 := by
  refine ⟨crc_table_eq_bits, ?_, by decide⟩
  intro bytes s hs hl
  rw [crc_generate_self]
  exact foldl_crc_step_eq_bitwise bytes s hs hl

theorem crc_generate_eq_bitwise_witness :
    crc_generate [0x42, 0, 8, 0] [0x42, 0, 8, 0].length 0xFFFF
      = crc_bitwise [0x42, 0, 8, 0] 0xFFFF :=
  crc_generate_eq_bitwise.2.1 [0x42, 0, 8, 0] 0xFFFF (by decide) (by decide)

/-- C18: `crc_generate` is a running checksum: over the empty sequence it
returns the seed; over `a ++ b` it returns what it returns over `b` when
seeded with its result over `a`; hence the two-step computation of
`uartSend` (header first, then the payload seeded with the header's
checksum) is one checksum over header followed by payload. -/
theorem crc_generate_running :
    (∀ s : Nat, crc_generate [] 0 s = s) ∧
    (∀ (a b : List Nat) (s : Nat),
      crc_generate (a ++ b) (a.length + b.length) s
        = crc_generate b b.length (crc_generate a a.length s)) ∧
    (∀ (h : uartRqstHeader_t) (p : List Nat) (n : Nat), n ≤ p.length →
      crc_generate p n (crc_generate h.bytes RQST_HDR_LENGTH 0xFFFF)
        = crc_generate (h.bytes ++ p.take n) (RQST_HDR_LENGTH + n) 0xFFFF) :=
  ⟨fun _ => rfl, fun a b s => crc_generate_append a b b.length s,
    fun h p n hn => uartSend_cksum h p n hn⟩

theorem crc_generate_running_witness :
    crc_generate [1, 2, 3] 2 (crc_generate (uartRqstHeader_t.mk 0x61 2 0 0).bytes
        RQST_HDR_LENGTH 0xFFFF)
      = crc_generate ((uartRqstHeader_t.mk 0x61 2 0 0).bytes ++ [1, 2, 3].take 2)
          (RQST_HDR_LENGTH + 2) 0xFFFF :=
  crc_generate_running.2.2 (uartRqstHeader_t.mk 0x61 2 0 0) [1, 2, 3] 2 (by decide)

theorem eq_set_of_differ_once (l l' : List Nat) (i : Nat) (hlen : l.length = l'.length)
    (hsame : ∀ j, j ≠ i → l.getD j 0 = l'.getD j 0) : l' = l.set i (l'.getD i 0) := by
  apply List.ext_getElem
  · rw [List.length_set, hlen]
  · intro n h1 h2
    rw [List.getElem_set]
    by_cases hn : i = n
    · subst hn
      rw [if_pos rfl, List.getD_eq_getElem _ _ h1]
    · rw [if_neg hn]
      have := hsame n (fun e => hn e.symm)
      rw [List.getD_eq_getElem _ _ h1, List.getD_eq_getElem _ _ (by omega)] at this
      exact this.symm

/-- C19: `crc_generate` detects every single-byte change: for every 16-bit
seed and every two byte sequences of the same length that differ in exactly
one position, the two checksums are different. -/
theorem crc_generate_single_byte_change (s : Nat) (l l' : List Nat) (i : Nat)
    (hs : s < 65536) (hl : ∀ b ∈ l, b < 256) (hl' : ∀ b ∈ l', b < 256)
    (hlen : l.length = l'.length) (hi : i < l.length)
    (hdiff : l.getD i 0 ≠ l'.getD i 0) (hsame : ∀ j, j ≠ i → l.getD j 0 = l'.getD j 0) :
    crc_generate l l.length s ≠ crc_generate l' l'.length s := by
  have e' := eq_set_of_differ_once l l' i hlen hsame
  obtain ⟨e1, e2⟩ := set_eq_take_cons_drop l i (l'.getD i 0) hi
  rw [crc_generate_self, crc_generate_self]
  rw [e', e1]
  conv_lhs => rw [e2]
  apply foldl_crc_step_single_change _ _ _ _ s hs
  · rw [List.getD_eq_getElem _ _ hi]
    exact hl _ (List.getElem_mem _)
  · rw [List.getD_eq_getElem _ _ (by omega)]
    exact hl' _ (List.getElem_mem _)
  · intro b hb
    exact hl b (List.mem_of_mem_drop hb)
  · exact hdiff

theorem crc_generate_single_byte_change_witness :
    crc_generate [1, 2, 3] [1, 2, 3].length 0xFFFF ≠ crc_generate [1, 7, 3] [1, 7, 3].length 0xFFFF :=
  crc_generate_single_byte_change 0xFFFF [1, 2, 3] [1, 7, 3] 1 (by decide) (by decide)
    (by decide) rfl (by decide) (by decide)
    (by
      intro j hj
      rcases j with _ | _ | _ | j
      · rfl
      · exact absurd rfl hj
      · rfl
      · rfl)

/-! ## Read failures, capacity and the result of the sender -/

/-- C14, evaluated at the failing input: the version query `0x42` is issued
through `ReadVersion` with the caller's buffer holding eight bytes 9, while
the channel holds the reply `{cmdID = 0x42, status = 0, length = 8}` with
payload `1 2 0 3 4 5 0 1` and correct checksum.  `ReadVersion` returns 0, has
only written the request (the reply is still unread in the channel) and the
version it prints is the caller's `9.9.9.9 / 9.9 / 9.9`, not the version of
the reply payload. -/
theorem ReadVersion_ignores_reply :
    completeReply streamChannel [0x42, 0, 8, 0, 125, 151, 1, 2, 0, 3, 4, 5, 0, 1]
      = some ([0x42, 0, 8, 0, 125, 151], [1, 2, 0, 3, 4, 5, 0, 1], []) ∧
    replyCksum [0x42, 0, 8, 0, 125, 151]
      = replyChecksum [0x42, 0, 8, 0, 125, 151] [1, 2, 0, 3, 4, 5, 0, 1] ∧
    (ReadVersion streamChannel (initWorld [0x42, 0, 8, 0, 125, 151, 1, 2, 0, 3, 4, 5, 0, 1] 0)
        CMD_VERSION [9, 9, 9, 9, 9, 9, 9, 9] 8).2
      = (0, some { sw_w := 9, sw_x := 9, sw_y := 9, sw_z := 9, hw_w := 9, hw_x := 9,
                   proto_w := 9, proto_x := 9 }) ∧
    (ReadVersion streamChannel (initWorld [0x42, 0, 8, 0, 125, 151, 1, 2, 0, 3, 4, 5, 0, 1] 0)
        CMD_VERSION [9, 9, 9, 9, 9, 9, 9, 9] 8).1.trace
      = [Event.write [0x42, 0, 0, 0, 0, 0, 72, 72] 8] ∧
    (ReadVersion streamChannel (initWorld [0x42, 0, 8, 0, 125, 151, 1, 2, 0, 3, 4, 5, 0, 1] 0)
        CMD_VERSION [9, 9, 9, 9, 9, 9, 9, 9] 8).1.chan
      = [0x42, 0, 8, 0, 125, 151, 1, 2, 0, 3, 4, 5, 0, 1] ∧
    versionAt [1, 2, 0, 3, 4, 5, 0, 1]
      = { sw_w := 1, sw_x := 2, sw_y := 0, sw_z := 3, hw_w := 4, hw_x := 5,
          proto_w := 0, proto_x := 1 } := by
  decide

/-- C20, evaluated at the failing input: with retry count 1, `uartRecv` on a
channel where the receive fails and the write of the resend fails returns 1,
and `uartRecv` on a channel that delivers, before and after a successful
resend, a reply with valid checksum and device status `0x01` returns 1 as
well; the two values are the same, `UART_CRC_ERROR`. -/
theorem uartRecv_resend_failure_value :
    (uartRecv 1 deafChannel (initWorld () 1) 0x42 [] 0).map
        (fun r => (attempts r.1.trace, r.2.2))
      = some ([Event.recvReturned UART_LOCAL_ERROR, Event.resendReturned 1],
          UART_CRC_ERROR) ∧
    replyCksum [0x42, 0x01, 0, 0, 17, 69] = replyChecksum [0x42, 0x01, 0, 0, 17, 69] [] ∧
    (uartRecv 1 streamChannel
        (initWorld [0x42, 0x01, 0, 0, 17, 69, 0x42, 0x01, 0, 0, 17, 69] 1) 0x42 [] 0).map
        (fun r => (attempts r.1.trace, r.2.2))
      = some ([Event.recvReturned 0x01, Event.resendReturned 0, Event.recvReturned 0x01],
          UART_CRC_ERROR) := by
  decide

/-- A payload-less `uartSend` whose header write returns 8. -/
theorem uartSend_no_payload_ok {σ : Type} (ch : Channel σ) (w : World σ) (cmdID : Nat)
    (payload : Option (List Nat)) (s1 : σ)
    (hw : ch.write w.chan (requestHeader cmdID 0 []) = (8, s1)) :
    (uartSend ch w cmdID payload 0).2 = 0 ∧
    (uartSend ch w cmdID payload 0).1.chan = s1 ∧
    (uartSend ch w cmdID payload 0).1.trace
      = w.trace ++ [Event.write (requestHeader cmdID 0 []) 8] := by
  have hR : ((RQST_HDR_LENGTH : Nat) : Int) = 8 := rfl
  have e : requestHeader cmdID 0 [] = (uartRqstHeader_t.mk cmdID 0 0
      (crc_generate (uartRqstHeader_t.mk cmdID 0 0 0).bytes RQST_HDR_LENGTH 0xFFFF)).bytes := by
    unfold requestHeader
    simp
  rw [e] at hw ⊢
  simp only [uartSend, UART1_write, readBytes_rqstHeader, ne_eq, not_true_eq_false,
    false_and, if_false, and_false, hR, hw]
  split_ifs <;> simp

/-- C15: for every command id `c` and every retry count, when the channel
takes the 8 header bytes of the payload-less request for `c` and then
delivers the reply header `{cmdID = c, status = 0x00, length = 0}` with
correct checksum, `WriteByte(c, NULL, 0)` returns 0, its only write is that
request header, and the receive leaves an empty result; and in general
`WriteByte` returns 0 exactly when `uartSend` returned 0 and `uartRecv` with
a null buffer of size 0 returned `UART_SUCCESS`. -/
theorem WriteByte_success {σ : Type} (fuel : Nat) (ch : Channel σ) (w : World σ) (c : Nat) :
    (∀ (hdr : List Nat) (s1 s2 : σ),
      ch.write w.chan (requestHeader c 0 []) = (8, s1) →
      completeReply ch s1 = some (hdr, [], s2) →
      replyCmdID hdr = c → replyStatus hdr = UART_SUCCESS →
      replyCksum hdr = replyChecksum hdr [] →
      ∃ v, WriteByte fuel ch w c none 0 = some (v, 0) ∧
        uartRecv fuel ch (uartSend ch w c none 0).1 c [] 0 = some (v, [], UART_SUCCESS) ∧
        v.trace = w.trace ++ [Event.write (requestHeader c 0 []) 8,
          Event.read 0 6 (some hdr), Event.recvReturned UART_SUCCESS]) ∧
    (∀ (data : Option (List Nat)) (size : Nat),
      (∃ v, WriteByte fuel ch w c data size = some (v, 0)) ↔
        ((uartSend ch w c data size).2 = 0 ∧
          ∃ r, uartRecv fuel ch (uartSend ch w c data size).1 c [] 0 = some r ∧
            r.2.2 = UART_SUCCESS)) := by
  constructor
  · intro hdr s1 s2 hw hrx hcmd hst hck
    obtain ⟨h1, h2, h3⟩ := uartSend_no_payload_ok ch w c none s1 hw
    obtain ⟨hl, hp, _, _⟩ := completeReply_spec ch s1 s2 hdr [] hrx
    have hrx' : completeReply ch (uartSend ch w c none 0).1.chan = some (hdr, [], s2) := by
      rw [h2]; exact hrx
    have hrecv := uartSingleRecv_of_complete ch (uartSend ch w c none 0).1 c [] 0 hdr [] s2 hrx'
      (by rw [← hp]; decide)
    have hchk : uartSingleRecvCheck (hdr ++ []) c [] 0 = ([], UART_SUCCESS) := by
      rw [uartSingleRecvCheck_eq hdr [] c [] 0 hl hp]
      have hst' : ¬ (replyStatus hdr ≠ 0 ∧ replyStatus hdr < 0x20) := by
        rw [hst]; simp [UART_SUCCESS]
      have h0 : replyLength hdr = 0 := by rw [← hp]; rfl
      simp only [hck, ne_eq, not_true_eq_false, if_false, hst', hcmd, h0, if_true]
    rw [hchk] at hrecv
    have hres : (uartSingleRecv ch (uartSend ch w c none 0).1 c [] 0).2.2 = UART_SUCCESS := by
      rw [hrecv]
    have hfirst := uartRecv_of_first ch (uartSend ch w c none 0).1 c [] 0 fuel (Or.inl hres)
    rw [hrecv] at hfirst
    refine ⟨_, ?_, hfirst, ?_⟩
    · unfold WriteByte
      simp only [h1, ne_eq, not_true_eq_false, if_false, hfirst]
      rfl
    · have h0 : replyLength hdr = 0 := by rw [← hp]; rfl
      simp [h3, replyReads, h0, REPLY_HDR_LENGTH]
  · intro data size
    unfold WriteByte
    simp only []
    by_cases hs : (uartSend ch w c data size).2 = 0
    · simp only [hs, ne_eq, not_true_eq_false, if_false, true_and]
      cases hr : uartRecv fuel ch (uartSend ch w c data size).1 c [] 0 with
      | none => simp
      | some r =>
        simp only [Option.some.injEq, exists_eq_left']
        by_cases h0 : r.2.2 = 0
        · simp [h0, UART_SUCCESS]
        · simp [h0, UART_SUCCESS]
    · simp [hs]

theorem WriteByte_success_witness :
    ∃ v, WriteByte 0 streamChannel (initWorld [0x62, 0, 0, 0, 72, 218] 3) CMD_SHUTDOWN none 0
        = some (v, 0) ∧
      uartRecv 0 streamChannel
          (uartSend streamChannel (initWorld [0x62, 0, 0, 0, 72, 218] 3) CMD_SHUTDOWN none 0).1
          CMD_SHUTDOWN [] 0 = some (v, [], UART_SUCCESS) ∧
      v.trace = (initWorld [0x62, 0, 0, 0, 72, 218] 3).trace ++
        [Event.write (requestHeader CMD_SHUTDOWN 0 []) 8,
          Event.read 0 6 (some [0x62, 0, 0, 0, 72, 218]), Event.recvReturned UART_SUCCESS] :=
  (WriteByte_success 0 streamChannel (initWorld [0x62, 0, 0, 0, 72, 218] 3) CMD_SHUTDOWN).1
    [0x62, 0, 0, 0, 72, 218] [0x62, 0, 0, 0, 72, 218] [] (by decide) (by decide) (by decide)
    (by decide) (by decide)

/-! ## Capacity of the staging buffer -/

/-- C21, evaluated at failing inputs: the staging buffer of `uartSingleRecv`
has `UART_MAX_DATA_SIZE + 1 = 8193` bytes.  For a delivered header with length
field 8187 the reads cover exactly 8193 bytes; for a header with length field
8188 (bytes `0xFC 0x1F`) `uartSingleRecv` asks the channel to store 8188 bytes
at `&buffer[6]`, which covers 8194 bytes, and for the length field 65535 it
covers 65541 bytes; both exceed the capacity. -/
theorem uartSingleRecv_staging_overflow :
    UART_MAX_DATA_SIZE + 1 = 8193 ∧
    replyLength [0x42, 0, 0xFB, 0x1F, 0, 0] = 8187 ∧
    stagingExtent
      (uartSingleRecv streamChannel (initWorld [0x42, 0, 0xFB, 0x1F, 0, 0] 0) 0x42 [] 0).1.trace
        = 8193 ∧
    replyLength [0x42, 0, 0xFC, 0x1F, 0, 0] = 8188 ∧
    (uartSingleRecv streamChannel (initWorld [0x42, 0, 0xFC, 0x1F, 0, 0] 0) 0x42 [] 0).1.trace
      = [Event.read 0 6 (some [0x42, 0, 0xFC, 0x1F, 0, 0]), Event.read 6 8188 (some []),
         Event.recvReturned UART_LOCAL_ERROR] ∧
    stagingExtent
      (uartSingleRecv streamChannel (initWorld [0x42, 0, 0xFC, 0x1F, 0, 0] 0) 0x42 [] 0).1.trace
        = 8194 ∧
    UART_MAX_DATA_SIZE + 1 < 8194 ∧
    stagingExtent
      (uartSingleRecv streamChannel (initWorld [0x42, 0, 0xFF, 0xFF, 0, 0] 0) 0x42 [] 0).1.trace
        = 65541 := by
  decide

end MPS
